import Mathlib

/-!
Verification of the two-pass OAT container writer (`src/oat_writer.cc`).

The writer runs a layout pass that assigns byte offsets to every record and
compiled artifact (with content deduplication keyed by the identity of the
compiler-owned buffers, and a rolling checksum over all logical contents),
and an emit pass that streams the bytes to a file and must reproduce the
layout offsets exactly.

Conventions of the shallow embedding:
* machine integers (`size_t`, `uint32_t`) are `Nat`; multi-byte fields are
  serialized little-endian via `le32` / `le16`;
* the compiler collaborator is an environment `Env`; `GetCompiledMethod`
  returns an optional identifier of a `CompiledMethodData` record, mirroring
  the C++ `CompiledMethod*`: buffer identity (the dedup key, `&code` in the
  source) is the identifier itself, and invoke-stub buffers live in a
  disjoint identity space (`CodeKey`), exactly as distinct C++ objects have
  distinct addresses;
* the rolling checksum state is the list of bytes fed to it (`trace`); the
  stored checksum value is an abstract function `Env.cksum` of that list;
* the output file is `WFile`: an append-only byte list plus an operation
  counter and an optional injected failure index modelling a failing
  `WriteFully`/`lseek`; diagnostics go to `WFile.log`.
-/

namespace Oat

/-- Little-endian bytes of a 32-bit word, as stored on disk and as fed to the
checksum by `UpdateChecksum(&x, sizeof(x))`. -/
def le32 (n : Nat) : List Nat :=
  [n % 256, n / 256 % 256, n / 2 ^ 16 % 256, n / 2 ^ 24 % 256]

/-- Little-endian bytes of a 16-bit word. -/
def le16 (n : Nat) : List Nat :=
  [n % 256, n / 256 % 256]

/-- `RoundUp(x, n)` from the source: round `x` up to a multiple of `n`. -/
def roundUp (x n : Nat) : Nat :=
  (x + n - 1) / n * n

/-- One compiled method as supplied by the `Compiler` collaborator
(`CompiledMethod` is declared outside this repository; fields modelled from
the spec interface: code bytes, required code alignment, thumb code delta,
frame metadata, mapping table of 32-bit entries, vmap table of 16-bit
entries). -/
structure CompiledMethodData where
  code : List Nat
  codeAlignment : Nat
  codeDelta : Nat
  frameSizeInBytes : Nat
  coreSpillMask : Nat
  fpSpillMask : Nat
  mappingTable : List Nat
  vmapTable : List Nat

/-- One invoke stub as supplied by `Compiler.FindInvokeStub`. -/
structure InvokeStubData where
  code : List Nat

/-- A method item yielded by the class-data iterator. -/
structure MethodItem where
  memberIdx : Nat
  accessFlags : Nat

/-- The method lists of a class definition that has class data. -/
structure ClassData where
  directMethods : List MethodItem
  virtualMethods : List MethodItem

/-- One input dex file: location string (as bytes), header checksum, class
definitions (`none` models `class_data == NULL`, an empty class such as a
marker interface), and the shorty of each method index. -/
structure DexFileData where
  location : List Nat
  checksum : Nat
  classDefs : List (Option ClassData)
  shorty : Nat → Nat

/-- Identity of a buffer registered in the shared code dedup map
(`code_offsets_`): either the code vector owned by a `CompiledMethod` or the
code vector owned by a `CompiledInvokeStub`.  Distinct C++ objects have
distinct addresses, so the two spaces never collide. -/
inductive CodeKey where
  | cmKey (i : Nat)
  | stubKey (i : Nat)
deriving DecidableEq

/-- The environment: the `Compiler` collaborator plus the build constants
(`kPageSize`, `kStackAlignment`, the architectural instruction alignment)
and the abstract pieces of `OatHeader` that live outside this repository.
`Modelled from the spec:` `headerEncode` serializes the fixed-size header
prelude from the rolling checksum value and the executable-section offset,
and `cksum` is the rolling-checksum value of a byte stream. -/
structure Env where
  getCompiledMethod : Nat → Nat → Option Nat
  cm : Nat → CompiledMethodData
  findInvokeStub : Bool → Nat → Option Nat
  stub : Nat → InvokeStubData
  isaAlignment : Nat
  pageSize : Nat
  stackAlignment : Nat
  headerSize : Nat
  headerEncode : Nat → Nat → List Nat
  cksum : List Nat → Nat

/-- Well-formedness of the build constants: alignments and sizes are the
positive constants of a real build (`kPageSize = 4096`, `kArmAlignment = 8`,
the header is a nonempty struct), the thumb delta is the 0/1 thumb bit, and
the header prelude has its declared size. -/
structure EnvWF (env : Env) : Prop where
  pageSizePos : 0 < env.pageSize
  headerSizePos : 0 < env.headerSize
  isaAlignPos : 0 < env.isaAlignment
  cmAlignPos : ∀ i, 0 < (env.cm i).codeAlignment
  deltaLe : ∀ i, (env.cm i).codeDelta ≤ 1
  headerLen : ∀ c e, (env.headerEncode c e).length = env.headerSize

/-- The byte contents of the buffer behind a code dedup key. -/
def codeKeyBytes (env : Env) : CodeKey → List Nat
  | CodeKey.cmKey i => (env.cm i).code
  | CodeKey.stubKey s => (env.stub s).code

/-- The encoded byte contents of a mapping-table buffer. -/
def mappingBytes (env : Env) (i : Nat) : List Nat :=
  ((env.cm i).mappingTable.map le32).flatten

/-- The encoded byte contents of a vmap-table buffer. -/
def vmapBytes (env : Env) (i : Nat) : List Nat :=
  ((env.cm i).vmapTable.map le16).flatten

/-- `OatMethodOffsets`: the per-method layout record (seven 32-bit words). -/
structure OatMethodOffsets where
  codeOffset : Nat
  frameSizeInBytes : Nat
  coreSpillMask : Nat
  fpSpillMask : Nat
  mappingTableOffset : Nat
  vmapTableOffset : Nat
  invokeStubOffset : Nat
deriving DecidableEq

/-- On-disk bytes of an `OatMethodOffsets` record. -/
def OatMethodOffsets.bytes (m : OatMethodOffsets) : List Nat :=
  le32 m.codeOffset ++ le32 m.frameSizeInBytes ++ le32 m.coreSpillMask ++
    le32 m.fpSpillMask ++ le32 m.mappingTableOffset ++ le32 m.vmapTableOffset ++
    le32 m.invokeStubOffset

/-- `OatWriter::OatDexFile`: the per-input descriptor record. -/
structure OatDexFileR where
  locationSize : Nat
  locationData : List Nat
  checksum : Nat
  classesOffset : Nat

/-- `OatDexFile::SizeOf`. -/
def odfSize (o : OatDexFileR) : Nat :=
  4 + o.locationSize + 4 + 4

/-- The bytes of a descriptor, in field order (also what
`OatDexFile::UpdateChecksum` feeds to the rolling checksum). -/
def descriptorBytes (o : OatDexFileR) : List Nat :=
  le32 o.locationSize ++ o.locationData ++ le32 o.checksum ++ le32 o.classesOffset

/-- The bytes of one class table (`OatClasses::methods_offsets_`). -/
def classTableBytes (tbl : List Nat) : List Nat :=
  (tbl.map le32).flatten

/-- The bytes of one methods table (`OatMethods::method_offsets_`). -/
def methodsTableBytes (mos : List OatMethodOffsets) : List Nat :=
  (mos.map OatMethodOffsets.bytes).flatten

/-- The three dedup maps (`code_offsets_`, `mapping_table_offsets_`,
`vmap_table_offsets_`), as association lists from buffer identity to the
first assigned offset. -/
structure DedupMaps where
  codeOffsets : List (CodeKey × Nat)
  mappingTableOffsets : List (Nat × Nat)
  vmapTableOffsets : List (Nat × Nat)

/-- `std::map::find` on an association list. -/
def lookupOff {α : Type} [DecidableEq α] : List (α × Nat) → α → Option Nat
  | [], _ => none
  | (k, v) :: rest, k' => if k = k' then some v else lookupOff rest k'

/-- Mutable state threaded through the per-method layout: the dedup maps and
the rolling-checksum byte trace of the `OatHeader`. -/
structure LayoutSt where
  maps : DedupMaps
  trace : List Nat

/-- The three 4-byte frame words (`frame_size_in_bytes`, `core_spill_mask`,
`fp_spill_mask`), always emitted inline. -/
def frameWords (frame core fp : Nat) : List Nat :=
  le32 frame ++ le32 core ++ le32 fp

/-- The shared dedup discipline of one artifact during layout (the four
find/insert blocks of `InitOatCodeMethod`): compute the provisional offset
(`0` when the artifact is empty, else the cursor plus `extra`, the thumb
delta for code and `0` otherwise); on a map hit return the previously
assigned offset and leave cursor, map and checksum untouched; on a miss
insert the provisional offset, advance the cursor by the byte size and feed
the bytes to the checksum. -/
def artifactLayout {α : Type} [DecidableEq α] (m : List (α × Nat)) (k : α)
    (extra : Nat) (bytes : List Nat) (offset : Nat) (trace : List Nat) :
    Nat × Nat × List (α × Nat) × List Nat :=
  let prov := if bytes.length = 0 then 0 else offset + extra
  match lookupOff m k with
  | some prev => (prev, offset, m, trace)
  | none => (prov, offset + bytes.length, (k, prov) :: m, trace ++ bytes)

/-- The invoke-stub step of `InitOatCodeMethod` (lines 261-279): runs whether
or not the method was compiled; aligns to the architectural instruction
alignment and dedups against the shared code map. -/
def stubLayout (env : Env) (isStatic : Bool) (shorty : Nat) (offset : Nat)
    (maps : DedupMaps) (trace : List Nat) : Nat × Nat × DedupMaps × List Nat :=
  match env.findInvokeStub isStatic shorty with
  | none => (0, offset, maps, trace)
  | some s =>
    let offsetA := roundUp offset env.isaAlignment
    let r := artifactLayout maps.codeOffsets (CodeKey.stubKey s) 0
      (env.stub s).code offsetA trace
    (r.1, r.2.1, { maps with codeOffsets := r.2.2.1 }, r.2.2.2)

/-- `OatWriter::InitOatCodeMethod`: computes the `OatMethodOffsets` of one
method, returning the record, the new cursor and the new layout state. -/
def initOatCodeMethod (env : Env) (dexIdx : Nat) (df : DexFileData)
    (isStatic : Bool) (methodIdx : Nat) (offset : Nat) (st : LayoutSt) :
    OatMethodOffsets × Nat × LayoutSt :=
  let cmOpt := env.getCompiledMethod dexIdx methodIdx
  -- code block (lines 199-220)
  let codeR : Nat × Nat × List (CodeKey × Nat) × List Nat × Nat × Nat × Nat :=
    match cmOpt with
    | none =>
      (0, offset, st.maps.codeOffsets, st.trace, env.stackAlignment, 0, 0)
    | some i =>
      let cm := env.cm i
      let offsetA := roundUp offset cm.codeAlignment
      let r := artifactLayout st.maps.codeOffsets (CodeKey.cmKey i) cm.codeDelta
        cm.code offsetA st.trace
      (r.1, r.2.1, r.2.2.1, r.2.2.2, cm.frameSizeInBytes, cm.coreSpillMask,
        cm.fpSpillMask)
  let codeOffset := codeR.1
  let offset1 := codeR.2.1
  let codeMap1 := codeR.2.2.1
  let trace1 := codeR.2.2.2.1
  let frame := codeR.2.2.2.2.1
  let core := codeR.2.2.2.2.2.1
  let fp := codeR.2.2.2.2.2.2
  -- frame words (lines 222-229)
  let offset2 := offset1 + 12
  let trace2 := trace1 ++ frameWords frame core fp
  -- mapping and vmap tables (lines 231-259)
  let tblR : Nat × Nat × Nat × List (Nat × Nat) × List (Nat × Nat) × List Nat :=
    match cmOpt with
    | none =>
      (0, 0, offset2, st.maps.mappingTableOffsets, st.maps.vmapTableOffsets,
        trace2)
    | some i =>
      let rm := artifactLayout st.maps.mappingTableOffsets i 0
        (mappingBytes env i) offset2 trace2
      let rv := artifactLayout st.maps.vmapTableOffsets i 0
        (vmapBytes env i) rm.2.1 rm.2.2.2
      (rm.1, rv.1, rv.2.1, rm.2.2.1, rv.2.2.1, rv.2.2.2)
  let mappingOffset := tblR.1
  let vmapOffset := tblR.2.1
  let offset4 := tblR.2.2.1
  let mapMap1 := tblR.2.2.2.1
  let vmapMap1 := tblR.2.2.2.2.1
  let trace4 := tblR.2.2.2.2.2
  -- invoke stub (lines 261-279)
  let stubR := stubLayout env isStatic (df.shorty methodIdx) offset4
    ⟨codeMap1, mapMap1, vmapMap1⟩ trace4
  (⟨codeOffset, frame, core, fp, mappingOffset, vmapOffset, stubR.1⟩,
    stubR.2.1, ⟨stubR.2.2.1, stubR.2.2.2⟩)

/-- Whether a direct method is static (`kAccStatic` is `0x0008`). -/
def itemIsStatic (m : MethodItem) : Bool :=
  Nat.land m.accessFlags 8 != 0

/-- The direct-method loop (and, with `isDirect = false`, the virtual-method
loop) of `InitOatCodeClassDef`. -/
def initOatCodeMethodList (env : Env) (dexIdx : Nat) (df : DexFileData)
    (isDirect : Bool) : List MethodItem → Nat → LayoutSt →
    List OatMethodOffsets × Nat × LayoutSt
  | [], offset, st => ([], offset, st)
  | m :: ms, offset, st =>
    let isStatic := if isDirect then itemIsStatic m else false
    let r := initOatCodeMethod env dexIdx df isStatic m.memberIdx offset st
    let rest := initOatCodeMethodList env dexIdx df isDirect ms r.2.1 r.2.2
    (r.1 :: rest.1, rest.2.1, rest.2.2)

/-- `OatWriter::InitOatCodeClassDef`: directs first, then virtuals; an empty
class (no class data) contributes nothing. -/
def initOatCodeClassDef (env : Env) (dexIdx : Nat) (df : DexFileData)
    (cd : Option ClassData) (offset : Nat) (st : LayoutSt) :
    List OatMethodOffsets × Nat × LayoutSt :=
  match cd with
  | none => ([], offset, st)
  | some d =>
    let r1 := initOatCodeMethodList env dexIdx df true d.directMethods offset st
    let r2 := initOatCodeMethodList env dexIdx df false d.virtualMethods
      r1.2.1 r1.2.2
    (r1.1 ++ r2.1, r2.2.1, r2.2.2)

/-- `OatWriter::InitOatCodeDexFile`: after each class definition the methods
table just filled is fed to the rolling checksum (line 140). -/
def initOatCodeDexFile (env : Env) (dexIdx : Nat) (df : DexFileData) :
    List (Option ClassData) → Nat → LayoutSt →
    List (List OatMethodOffsets) × Nat × LayoutSt
  | [], offset, st => ([], offset, st)
  | cd :: cds, offset, st =>
    let r := initOatCodeClassDef env dexIdx df cd offset st
    let st2 : LayoutSt := ⟨r.2.2.maps, r.2.2.trace ++ methodsTableBytes r.1⟩
    let rest := initOatCodeDexFile env dexIdx df cds r.2.1 st2
    (r.1 :: rest.1, rest.2.1, rest.2.2)

/-- `OatWriter::InitOatCodeDexFiles`. -/
def initOatCodeDexFiles (env : Env) (dexIdx : Nat) :
    List DexFileData → Nat → LayoutSt →
    List (List (List OatMethodOffsets)) × Nat × LayoutSt
  | [], offset, st => ([], offset, st)
  | df :: dfs, offset, st =>
    let r := initOatCodeDexFile env dexIdx df df.classDefs offset st
    let rest := initOatCodeDexFiles env (dexIdx + 1) dfs r.2.1 r.2.2
    (r.1 :: rest.1, rest.2.1, rest.2.2)

/-- `OatWriter::InitOatHeader`: the cursor starts after the header prelude. -/
def initOatHeader (env : Env) : Nat :=
  env.headerSize

/-- `OatWriter::InitOatDexFiles`: create the descriptors (classes offset
still 0) and advance the cursor past them. -/
def initOatDexFiles : List DexFileData → Nat → List OatDexFileR × Nat
  | [], offset => ([], offset)
  | df :: dfs, offset =>
    let odf : OatDexFileR := ⟨df.location.length, df.location, df.checksum, 0⟩
    let rest := initOatDexFiles dfs (offset + odfSize odf)
    (odf :: rest.1, rest.2)

/-- `OatWriter::InitOatClasses`: set each descriptor's classes offset to the
cursor, feed the finished descriptor to the checksum, and reserve one
4-byte class-table slot per class definition. -/
def initOatClasses : List DexFileData → List OatDexFileR → Nat → List Nat →
    List OatDexFileR × Nat × List Nat
  | [], _, offset, t => ([], offset, t)
  | _ :: _, [], offset, t => ([], offset, t)
  | df :: dfs, odf :: odfs, offset, t =>
    let odf' : OatDexFileR := { odf with classesOffset := offset }
    let t' := t ++ descriptorBytes odf'
    let rest := initOatClasses dfs odfs (offset + 4 * df.classDefs.length) t'
    (odf' :: rest.1, rest.2.1, rest.2.2)

/-- Number of methods of a class definition (0 for an empty class). -/
def numMethodsOf : Option ClassData → Nat
  | none => 0
  | some d => d.directMethods.length + d.virtualMethods.length

/-- The class-table entries of one input: each entry is the cursor at which
that class definition's methods table starts
(`sizeof(OatMethodOffsets) = 28`). -/
def classTableStep : List (Option ClassData) → Nat → List Nat × Nat
  | [], offset => ([], offset)
  | cd :: rest, offset =>
    let r := classTableStep rest (offset + 28 * numMethodsOf cd)
    (offset :: r.1, r.2)

/-- `OatWriter::InitOatMethods`: fill each input's class table, reserve the
methods tables, and feed the finished class table to the checksum. -/
def initOatMethods : List DexFileData → Nat → List Nat →
    List (List Nat) × Nat × List Nat
  | [], offset, t => ([], offset, t)
  | df :: dfs, offset, t =>
    let r := classTableStep df.classDefs offset
    let t1 := t ++ classTableBytes r.1
    let rest := initOatMethods dfs r.2 t1
    (r.1 :: rest.1, rest.2.1, rest.2.2)

/-- `OatWriter::InitOatCode`: round the cursor up to the page size, record
the executable-section offset and the padding length. -/
def initOatCode (env : Env) (offset : Nat) : Nat × Nat :=
  (roundUp offset env.pageSize, roundUp offset env.pageSize - offset)

/-- Everything the layout pass produces. -/
structure LayoutResult where
  oatDexFiles : List OatDexFileR
  classTables : List (List Nat)
  oatMethods : List (List (List OatMethodOffsets))
  tablesEnd : Nat
  executableOffset : Nat
  padLen : Nat
  finalOffset : Nat
  maps : DedupMaps
  trace : List Nat

/-- The whole layout pass (the `OatWriter` constructor, lines 30-36). -/
def layoutAll (env : Env) (dfs : List DexFileData) : LayoutResult :=
  let offset0 := initOatHeader env
  let r1 := initOatDexFiles dfs offset0
  let r2 := initOatClasses dfs r1.1 r1.2 []
  let r3 := initOatMethods dfs r2.2.1 r2.2.2
  let r4 := initOatCode env r3.2.1
  let r5 := initOatCodeDexFiles env 0 dfs r4.1 ⟨⟨[], [], []⟩, r3.2.2⟩
  ⟨r2.1, r3.1, r5.1, r3.2.1, r4.1, r4.2, r5.2.1, r5.2.2.maps, r5.2.2.trace⟩

/-! ## The emit pass

The output file is append-only: the file position is always the length of
the written content, a forward `lseek` materialises the skipped range as
zero bytes (how a hole reads back), and an injected failure index `failAt`
makes the `failAt`-th write or seek operation fail, modelling a failing
`WriteFully` or `lseek`. -/

/-- The output file. -/
structure WFile where
  fname : String
  content : List Nat
  ops : Nat
  failAt : Option Nat
  log : List String

/-- Append a diagnostic naming the failed record and the target file. -/
def WFile.addLog (f : WFile) (s : String) : WFile :=
  { f with log := f.log ++ [s ++ f.fname] }

/-- `file->WriteFully(buf, size)`. -/
def WFile.writeFully (f : WFile) (bytes : List Nat) : Bool × WFile :=
  if f.failAt = some f.ops then
    (false, { f with ops := f.ops + 1 })
  else
    (true, { f with content := f.content ++ bytes, ops := f.ops + 1 })

/-- `lseek(file->Fd(), delta, SEEK_CUR)`: returns the new file position, or
`none` when the seek fails. -/
def WFile.seekForward (f : WFile) (delta : Nat) : Option Nat × WFile :=
  if f.failAt = some f.ops then
    (none, { f with ops := f.ops + 1 })
  else
    (some (f.content.length + delta),
      { f with content := f.content ++ List.replicate delta 0, ops := f.ops + 1 })

/-- The file extended by `δ` content bytes and `n` operations. -/
def WFile.ext (f : WFile) (δ : List Nat) (n : Nat) : WFile :=
  { f with content := f.content ++ δ, ops := f.ops + n }

/-- A fresh output file. -/
def mkFile (nm : String) (failAt : Option Nat) : WFile :=
  ⟨nm, [], 0, failAt, []⟩

/-- Sequence two emit steps, aborting on failure (the `return false` /
`return 0` early exits of the source). -/
def bindStep (r : Option Nat × WFile) (k : Nat → WFile → Option Nat × WFile) :
    Option Nat × WFile :=
  match r with
  | (some c, f) => k c f
  | (none, f) => (none, f)

/-- Write one non-deduplicated record and advance the running offset by its
size, logging on failure (a `WriteFully` call site of the emit pass). -/
def writeRecord (bytes : List Nat) (nm : String) (codeOffset : Nat)
    (f : WFile) : Option Nat × WFile :=
  match f.writeFully bytes with
  | (true, f1) => (some (codeOffset + bytes.length), f1)
  | (false, f1) => (none, f1.addLog nm)

/-- Seek forward to an alignment boundary (lines 458-469 and 563-575): no
operation when already aligned, otherwise seek and verify that the new file
position equals the expected aligned offset. -/
def seekAlign (codeOffset aligned : Nat) (nm : String) (f : WFile) :
    Option Nat × WFile :=
  if aligned - codeOffset = 0 then (some codeOffset, f)
  else
    match f.seekForward (aligned - codeOffset) with
    | (some newOff, f1) =>
      if newOff = aligned then (some (codeOffset + (aligned - codeOffset)), f1)
      else (none, f1.addLog nm)
    | (none, f1) => (none, f1.addLog nm)

/-- The shared dedup discipline of one artifact during emit (the four
find/branch blocks of `WriteCodeMethod`): when the dedup map knows the
buffer and the probe offset disagrees with the stored offset, the bytes were
already written earlier — write nothing and do not advance; otherwise write
the bytes and advance the running offset. -/
def artifactEmit {α : Type} [DecidableEq α] (m : List (α × Nat)) (k : α)
    (probe stored : Nat) (bytes : List Nat) (nm : String) (codeOffset : Nat)
    (f : WFile) : Option Nat × WFile :=
  if (lookupOff m k).isSome && (probe != stored) then (some codeOffset, f)
  else writeRecord bytes nm codeOffset f

/-- The method-code block of `WriteCodeMethod` (lines 457-495). -/
def writeMethodCode (env : Env) (mapsF : DedupMaps) (cmOpt : Option Nat)
    (mo : OatMethodOffsets) (codeOffset : Nat) (f : WFile) :
    Option Nat × WFile :=
  match cmOpt with
  | none => (some codeOffset, f)
  | some i =>
    let cm := env.cm i
    let aligned := roundUp codeOffset cm.codeAlignment
    bindStep (seekAlign codeOffset aligned "Failed to seek to align oat code in " f)
      fun c1 f1 =>
        artifactEmit mapsF.codeOffsets (CodeKey.cmKey i) (c1 + cm.codeDelta)
          mo.codeOffset cm.code "Failed to write method code to " c1 f1

/-- The frame-word block of `WriteCodeMethod` (lines 497-511): three inline
4-byte words, never deduplicated. -/
def writeFrameWords (frame core fp : Nat) (codeOffset : Nat) (f : WFile) :
    Option Nat × WFile :=
  bindStep (writeRecord (le32 frame) "Failed to write method frame size to " codeOffset f)
    fun c1 f1 =>
      bindStep (writeRecord (le32 core) "Failed to write method core spill mask to " c1 f1)
        fun c2 f2 =>
          writeRecord (le32 fp) "Failed to write method fp spill mask to " c2 f2

/-- The mapping-table and vmap-table blocks of `WriteCodeMethod`
(lines 513-559). -/
def writeSideTables (env : Env) (mapsF : DedupMaps) (cmOpt : Option Nat)
    (mo : OatMethodOffsets) (codeOffset : Nat) (f : WFile) :
    Option Nat × WFile :=
  match cmOpt with
  | none => (some codeOffset, f)
  | some i =>
    bindStep
      (artifactEmit mapsF.mappingTableOffsets i codeOffset mo.mappingTableOffset
        (mappingBytes env i) "Failed to write mapping table to "
        codeOffset f)
      fun c1 f1 =>
        artifactEmit mapsF.vmapTableOffsets i c1 mo.vmapTableOffset
          (vmapBytes env i) "Failed to write vmap table to " c1 f1

/-- The invoke-stub block of `WriteCodeMethod` (lines 560-599). -/
def writeInvokeStub (env : Env) (mapsF : DedupMaps) (isStatic : Bool)
    (shorty : Nat) (mo : OatMethodOffsets) (codeOffset : Nat) (f : WFile) :
    Option Nat × WFile :=
  match env.findInvokeStub isStatic shorty with
  | none => (some codeOffset, f)
  | some s =>
    let aligned := roundUp codeOffset env.isaAlignment
    bindStep
      (seekAlign codeOffset aligned "Failed to seek to align invoke stub code in " f)
      fun c1 f1 =>
        artifactEmit mapsF.codeOffsets (CodeKey.stubKey s) c1 mo.invokeStubOffset
          (env.stub s).code "Failed to write invoke stub code to " c1 f1

/-- `OatWriter::WriteCodeMethod`: emit the executable-section records of one
method, reproducing the dedup discipline of the layout pass. -/
def writeCodeMethod (env : Env) (mapsF : DedupMaps) (dexIdx : Nat)
    (df : DexFileData) (mo : OatMethodOffsets) (isStatic : Bool)
    (methodIdx : Nat) (codeOffset : Nat) (f : WFile) : Option Nat × WFile :=
  let cmOpt := env.getCompiledMethod dexIdx methodIdx
  let frame := match cmOpt with | none => 0 | some i => (env.cm i).frameSizeInBytes
  let core := match cmOpt with | none => 0 | some i => (env.cm i).coreSpillMask
  let fp := match cmOpt with | none => 0 | some i => (env.cm i).fpSpillMask
  bindStep (writeMethodCode env mapsF cmOpt mo codeOffset f) fun c1 f1 =>
    bindStep (writeFrameWords frame core fp c1 f1) fun c2 f2 =>
      bindStep (writeSideTables env mapsF cmOpt mo c2 f2) fun c3 f3 =>
        writeInvokeStub env mapsF isStatic (df.shorty methodIdx) mo c3 f3

/-- One method loop of `WriteCodeClassDef`, in lockstep with the
`method_offsets_` records filled during layout. -/
def writeCodeMethodList (env : Env) (mapsF : DedupMaps) (dexIdx : Nat)
    (df : DexFileData) (isDirect : Bool) :
    List MethodItem → List OatMethodOffsets → Nat → WFile →
    Option Nat × WFile
  | [], _, codeOffset, f => (some codeOffset, f)
  | _ :: _, [], codeOffset, f => (some codeOffset, f)
  | m :: ms, mo :: mos, codeOffset, f =>
    let isStatic := if isDirect then itemIsStatic m else false
    bindStep (writeCodeMethod env mapsF dexIdx df mo isStatic m.memberIdx codeOffset f)
      fun c1 f1 => writeCodeMethodList env mapsF dexIdx df isDirect ms mos c1 f1

/-- `OatWriter::WriteCodeClassDef`. -/
def writeCodeClassDef (env : Env) (mapsF : DedupMaps) (dexIdx : Nat)
    (df : DexFileData) (cd : Option ClassData) (mos : List OatMethodOffsets)
    (codeOffset : Nat) (f : WFile) : Option Nat × WFile :=
  match cd with
  | none => (some codeOffset, f)
  | some d =>
    bindStep
      (writeCodeMethodList env mapsF dexIdx df true d.directMethods
        (mos.take d.directMethods.length) codeOffset f)
      fun c1 f1 =>
        writeCodeMethodList env mapsF dexIdx df false d.virtualMethods
          (mos.drop d.directMethods.length) c1 f1

/-- `OatWriter::WriteCodeDexFile`. -/
def writeCodeDexFile (env : Env) (mapsF : DedupMaps) (dexIdx : Nat)
    (df : DexFileData) :
    List (Option ClassData) → List (List OatMethodOffsets) → Nat → WFile →
    Option Nat × WFile
  | [], _, codeOffset, f => (some codeOffset, f)
  | _ :: _, [], codeOffset, f => (some codeOffset, f)
  | cd :: cds, mos :: moss, codeOffset, f =>
    bindStep (writeCodeClassDef env mapsF dexIdx df cd mos codeOffset f)
      fun c1 f1 => writeCodeDexFile env mapsF dexIdx df cds moss c1 f1

/-- `OatWriter::WriteCodeDexFiles`. -/
def writeCodeDexFiles (env : Env) (mapsF : DedupMaps) (dexIdx : Nat) :
    List DexFileData → List (List (List OatMethodOffsets)) → Nat → WFile →
    Option Nat × WFile
  | [], _, codeOffset, f => (some codeOffset, f)
  | _ :: _, [], codeOffset, f => (some codeOffset, f)
  | df :: dfs, moss :: mosss, codeOffset, f =>
    bindStep (writeCodeDexFile env mapsF (dexIdx : Nat) df df.classDefs moss codeOffset f)
      fun c1 f1 => writeCodeDexFiles env mapsF (dexIdx + 1) dfs mosss c1 f1

/-- Sequence two record writes, aborting on failure. -/
def seqB (r : Bool × WFile) (k : WFile → Bool × WFile) : Bool × WFile :=
  match r with
  | (false, f) => (false, f)
  | (true, f) => k f

/-- Sequence with an extra diagnostic appended at this level on failure. -/
def seqBLog (r : Bool × WFile) (nm : String) (k : WFile → Bool × WFile) :
    Bool × WFile :=
  match r with
  | (false, f) => (false, f.addLog nm)
  | (true, f) => k f

/-- Turn a failed offset-carrying step into a `false` result with an extra
diagnostic (the `code_offset == 0` early exits of `Write`). -/
def seqNB (r : Option Nat × WFile) (nm : String)
    (k : Nat → WFile → Bool × WFile) : Bool × WFile :=
  match r with
  | (none, f) => (false, f.addLog nm)
  | (some c, f) => k c f

/-- One `WriteFully` with its failure diagnostic. -/
def writeField (bytes : List Nat) (nm : String) (f : WFile) : Bool × WFile :=
  match f.writeFully bytes with
  | (false, f1) => (false, f1.addLog nm)
  | (true, f1) => (true, f1)

/-- `OatWriter::OatDexFile::Write`: the four descriptor fields. -/
def writeOatDexFile (o : OatDexFileR) (f : WFile) : Bool × WFile :=
  seqB (writeField (le32 o.locationSize) "Failed to write dex file location length to " f)
    fun f1 =>
  seqB (writeField o.locationData "Failed to write dex file location data to " f1)
    fun f2 =>
  seqB (writeField (le32 o.checksum) "Failed to write dex file checksum to " f2)
    fun f3 =>
  writeField (le32 o.classesOffset) "Failed to write classes offset to " f3

/-- The descriptor loop of `WriteTables`. -/
def writeDexFileTable : List OatDexFileR → WFile → Bool × WFile
  | [], f => (true, f)
  | o :: os, f =>
    seqBLog (writeOatDexFile o f) "Failed to write oat dex information to "
      fun f1 => writeDexFileTable os f1

/-- The class-table loop of `WriteTables` (`OatClasses::Write`). -/
def writeClassesTable : List (List Nat) → WFile → Bool × WFile
  | [], f => (true, f)
  | tbl :: tbls, f =>
    seqBLog (writeField (classTableBytes tbl) "Failed to write methods offsets to " f)
      "Failed to write oat classes information to "
      fun f1 => writeClassesTable tbls f1

/-- The methods-table loop of `WriteTables` (`OatMethods::Write`). -/
def writeMethodsTable : List (List OatMethodOffsets) → WFile → Bool × WFile
  | [], f => (true, f)
  | mos :: moss, f =>
    seqBLog (writeField (methodsTableBytes mos) "Failed to write method offsets to " f)
      "Failed to write oat methods information to "
      fun f1 => writeMethodsTable moss f1

/-- `OatWriter::WriteTables`. -/
def writeTables (L : LayoutResult) (f : WFile) : Bool × WFile :=
  seqB (writeDexFileTable L.oatDexFiles f) fun f1 =>
    seqB (writeClassesTable L.classTables f1) fun f2 =>
      writeMethodsTable L.oatMethods.flatten f2

/-- `OatWriter::WriteCode`: seek past the page padding and verify that the
file position equals the executable-section offset of the header. -/
def writeCode (L : LayoutResult) (f : WFile) : Option Nat × WFile :=
  match f.seekForward L.padLen with
  | (none, f1) => (none, f1.addLog "Failed to seek to oat code section in ")
  | (some newOff, f1) =>
    if newOff = L.executableOffset then (some L.executableOffset, f1)
    else (none, f1.addLog "Failed to seek to oat code section in ")

/-- The bytes of the header prelude as written by `Write` (checksum value and
executable offset are the layout results). -/
def headerBytes (env : Env) (L : LayoutResult) : List Nat :=
  env.headerEncode (env.cksum L.trace) L.executableOffset

/-- `OatWriter::Write`: the whole emit pass. -/
def writeOat (env : Env) (dfs : List DexFileData) (L : LayoutResult)
    (f : WFile) : Bool × WFile :=
  seqB (writeField (headerBytes env L) "Failed to write oat header to " f)
    fun f1 =>
  seqBLog (writeTables L f1) "Failed to write oat tables to " fun f2 =>
  seqNB (writeCode L f2) "Failed to write oat code to " fun c3 f3 =>
  seqNB (writeCodeDexFiles env L.maps 0 dfs L.oatMethods c3 f3)
    "Failed to write oat code for dex files to " fun _ f4 => (true, f4)

/-- `OatWriter::Create` / one full run of the writer: layout then emit. -/
def oatWriterRun (env : Env) (dfs : List DexFileData) (nm : String)
    (failAt : Option Nat) : Bool × WFile :=
  writeOat env dfs (layoutAll env dfs) (mkFile nm failAt)

/-! ## Independent recomputation of the logical-content stream

The spec demands that the rolling checksum stored in the emitted header
equal an independent recomputation streaming the same logical-content
sequence: descriptor bytes, class-table bytes, and per class definition the
first-occurrence artifact bytes followed by the methods-table bytes, in
layout order.  The recomputation below walks the *final* layout structures
(it never threads a cursor; first occurrence is decided purely by
which buffer identities have been seen). -/

/-- The identity sets of the buffers already streamed. -/
structure KeySets where
  codeKeys : List CodeKey
  mappingKeys : List Nat
  vmapKeys : List Nat

/-- Contribution of one artifact to the logical stream: its bytes at the
first occurrence of its buffer identity, nothing afterwards. -/
def replayArtifact {α : Type} [DecidableEq α] (ks : List α) (k : α)
    (bytes : List Nat) : List Nat × List α :=
  if k ∈ ks then ([], ks) else (bytes, k :: ks)

/-- Stream contribution of the invoke-stub step. -/
def stubReplay (env : Env) (isStatic : Bool) (shorty : Nat)
    (cks : List CodeKey) : List Nat × List CodeKey :=
  match env.findInvokeStub isStatic shorty with
  | none => ([], cks)
  | some s => replayArtifact cks (CodeKey.stubKey s) (env.stub s).code

/-- Stream contribution of one method: first-occurrence code, the three
frame words as checksummed by layout (`kStackAlignment` and zero masks when
the method has no compiled code), first-occurrence mapping and vmap tables,
first-occurrence stub. -/
def methodReplay (env : Env) (dexIdx : Nat) (df : DexFileData)
    (isStatic : Bool) (methodIdx : Nat) (ks : KeySets) : List Nat × KeySets :=
  match env.getCompiledMethod dexIdx methodIdx with
  | none =>
    let rs := stubReplay env isStatic (df.shorty methodIdx) ks.codeKeys
    (frameWords env.stackAlignment 0 0 ++ rs.1, { ks with codeKeys := rs.2 })
  | some i =>
    let cm := env.cm i
    let rc := replayArtifact ks.codeKeys (CodeKey.cmKey i) cm.code
    let rm := replayArtifact ks.mappingKeys i (mappingBytes env i)
    let rv := replayArtifact ks.vmapKeys i (vmapBytes env i)
    let rs := stubReplay env isStatic (df.shorty methodIdx) rc.2
    (rc.1 ++ frameWords cm.frameSizeInBytes cm.coreSpillMask cm.fpSpillMask ++
      rm.1 ++ rv.1 ++ rs.1, ⟨rs.2, rm.2, rv.2⟩)

/-- Stream contribution of one method list. -/
def methodListReplay (env : Env) (dexIdx : Nat) (df : DexFileData)
    (isDirect : Bool) : List MethodItem → KeySets → List Nat × KeySets
  | [], ks => ([], ks)
  | m :: ms, ks =>
    let isStatic := if isDirect then itemIsStatic m else false
    let r := methodReplay env dexIdx df isStatic m.memberIdx ks
    let rest := methodListReplay env dexIdx df isDirect ms r.2
    (r.1 ++ rest.1, rest.2)

/-- Stream contribution of one class definition: the artifacts of its
methods, then its stored methods table. -/
def classDefReplay (env : Env) (dexIdx : Nat) (df : DexFileData)
    (cd : Option ClassData) (mos : List OatMethodOffsets) (ks : KeySets) :
    List Nat × KeySets :=
  let r :=
    match cd with
    | none => (([] : List Nat), ks)
    | some d =>
      let r1 := methodListReplay env dexIdx df true d.directMethods ks
      let r2 := methodListReplay env dexIdx df false d.virtualMethods r1.2
      (r1.1 ++ r2.1, r2.2)
  (r.1 ++ methodsTableBytes mos, r.2)

/-- Stream contribution of one input's class definitions. -/
def classDefListReplay (env : Env) (dexIdx : Nat) (df : DexFileData) :
    List (Option ClassData) → List (List OatMethodOffsets) → KeySets →
    List Nat × KeySets
  | [], _, ks => ([], ks)
  | _ :: _, [], ks => ([], ks)
  | cd :: cds, mos :: moss, ks =>
    let r := classDefReplay env dexIdx df cd mos ks
    let rest := classDefListReplay env dexIdx df cds moss r.2
    (r.1 ++ rest.1, rest.2)

/-- Stream contribution of the executable section across all inputs. -/
def dexReplay (env : Env) (dexIdx : Nat) :
    List DexFileData → List (List (List OatMethodOffsets)) → KeySets →
    List Nat × KeySets
  | [], _, ks => ([], ks)
  | _ :: _, [], ks => ([], ks)
  | df :: dfs, moss :: mosss, ks =>
    let r := classDefListReplay env dexIdx df df.classDefs moss ks
    let rest := dexReplay env (dexIdx + 1) dfs mosss r.2
    (r.1 ++ rest.1, rest.2)

/-- The full logical-content sequence recomputed from the final layout
structures. -/
def logicalStream (env : Env) (dfs : List DexFileData) (L : LayoutResult) :
    List Nat :=
  (L.oatDexFiles.map descriptorBytes).flatten ++
    (L.classTables.map classTableBytes).flatten ++
    (dexReplay env 0 dfs L.oatMethods ⟨[], [], []⟩).1

/-! ## Indexed access to methods and their layout records -/

/-- The `(is_static, member_idx)` sequence of a class definition, directs
first (static per access flags), then virtuals (never static). -/
def classItems (cd : Option ClassData) : List (Bool × Nat) :=
  match cd with
  | none => []
  | some d =>
    d.directMethods.map (fun m => (itemIsStatic m, m.memberIdx)) ++
      d.virtualMethods.map (fun m => (false, m.memberIdx))

/-- The method at position `(d, c, m)` of the traversal. -/
def methodItemAt (dfs : List DexFileData) (d c m : Nat) : Option (Bool × Nat) :=
  dfs[d]?.bind fun df => (df.classDefs[c]?).bind fun cd => (classItems cd)[m]?

/-- The layout record stored for the method at position `(d, c, m)`. -/
def methodLayoutAt (L : LayoutResult) (d c m : Nat) : Option OatMethodOffsets :=
  L.oatMethods[d]?.bind fun dft => (dft[c]?).bind fun cdt => cdt[m]?

/-! ## Invariant predicates -/

/-- Submap: every association of `m₁` is still visible in `m₂`.  The layout
pass only ever inserts absent keys, so its maps grow along this order and
the final maps agree with every intermediate lookup. -/
def mapLe {α : Type} [DecidableEq α] (m₁ m₂ : List (α × Nat)) : Prop :=
  ∀ k v, lookupOff m₁ k = some v → lookupOff m₂ k = some v

/-- Submap on all three dedup maps. -/
def mapsLe (a b : DedupMaps) : Prop :=
  mapLe a.codeOffsets b.codeOffsets ∧
    mapLe a.mappingTableOffsets b.mappingTableOffsets ∧
    mapLe a.vmapTableOffsets b.vmapTableOffsets

/-- All offsets recorded in a dedup map lie strictly below the cursor. -/
def mapBounded {α : Type} [DecidableEq α] (m : List (α × Nat)) (c : Nat) : Prop :=
  ∀ k v, lookupOff m k = some v → v < c

/-- Boundedness of all three dedup maps. -/
def mapsBounded (maps : DedupMaps) (c : Nat) : Prop :=
  mapBounded maps.codeOffsets c ∧ mapBounded maps.mappingTableOffsets c ∧
    mapBounded maps.vmapTableOffsets c

/-- Empty buffers are recorded with the sentinel offset 0. -/
def mapsZero (env : Env) (maps : DedupMaps) : Prop :=
  (∀ k w, lookupOff maps.codeOffsets k = some w → codeKeyBytes env k = [] →
      w = 0) ∧
    (∀ i w, lookupOff maps.mappingTableOffsets i = some w →
      mappingBytes env i = [] → w = 0) ∧
    (∀ i w, lookupOff maps.vmapTableOffsets i = some w →
      vmapBytes env i = [] → w = 0)

/-- The segment of `content` starting at `pos` is exactly `seg`. -/
def segAt (content : List Nat) (pos : Nat) (seg : List Nat) : Prop :=
  pos + seg.length ≤ content.length ∧ (content.drop pos).take seg.length = seg

/-- Every compiled-code buffer recorded in the code dedup map already lies in
the file at its recorded offset minus its thumb delta. -/
def codePlacement (env : Env) (cmap : List (CodeKey × Nat))
    (content : List Nat) : Prop :=
  ∀ i v, lookupOff cmap (CodeKey.cmKey i) = some v → (env.cm i).code ≠ [] →
    (env.cm i).codeDelta ≤ v ∧
      segAt content (v - (env.cm i).codeDelta) (env.cm i).code

/-- The replay key sets hold exactly the keys of the dedup maps. -/
def keysMatch (ks : KeySets) (maps : DedupMaps) : Prop :=
  (∀ k, k ∈ ks.codeKeys ↔ (lookupOff maps.codeOffsets k).isSome) ∧
    (∀ k, k ∈ ks.mappingKeys ↔ (lookupOff maps.mappingTableOffsets k).isSome) ∧
    (∀ k, k ∈ ks.vmapKeys ↔ (lookupOff maps.vmapTableOffsets k).isSome)

/-! ## Simulation predicates for the emit pass

`SimB cpre F δ n` (and `SimN` for offset-carrying steps) says: started on any
file of content length `cpre`, the step `F` performs `n` write/seek
operations; when no operation fails it succeeds and appends exactly `δ`;
when the injected failure hits one of its operations the step stops at that
operation (the operation counter ends right after it), has appended only a
prefix of `δ`, returns failure, and has emitted at least one diagnostic. -/

/-- Simulation of a `Bool`-valued emit step. -/
def SimB (cpre : Nat) (F : WFile → Bool × WFile) (δ : List Nat) (n : Nat) :
    Prop :=
  ∀ f : WFile, f.content.length = cpre →
    ((f.failAt = none ∨ ∃ k, f.failAt = some k ∧ (k < f.ops ∨ f.ops + n ≤ k)) →
      F f = (true, f.ext δ n)) ∧
    (∀ k, f.failAt = some k → f.ops ≤ k → k < f.ops + n →
      ∃ δ2 lg, δ2 <+: δ ∧ lg ≠ [] ∧
        F f = (false, ⟨f.fname, f.content ++ δ2, k + 1, some k, f.log ++ lg⟩))

/-- Simulation of an offset-carrying emit step whose running offset always
equals the file position. -/
def SimN (cpre : Nat) (F : WFile → Option Nat × WFile) (δ : List Nat)
    (n : Nat) : Prop :=
  ∀ f : WFile, f.content.length = cpre →
    ((f.failAt = none ∨ ∃ k, f.failAt = some k ∧ (k < f.ops ∨ f.ops + n ≤ k)) →
      F f = (some (cpre + δ.length), f.ext δ n)) ∧
    (∀ k, f.failAt = some k → f.ops ≤ k → k < f.ops + n →
      ∃ δ2 lg, δ2 <+: δ ∧ lg ≠ [] ∧
        F f = (none, ⟨f.fname, f.content ++ δ2, k + 1, some k, f.log ++ lg⟩))

/-- The per-method facts recorded by the layout pass, stated against the
final dedup maps: the stored code offset is the dedup map's entry for the
method's code buffer (hence methods sharing a buffer share an offset), and
empty artifacts are stored with offset 0. -/
def ClassMethodFact (env : Env) (mapsF : DedupMaps) (dexIdx : Nat)
    (df : DexFileData) (p : Bool × Nat) (mo : OatMethodOffsets) : Prop :=
  (∀ i, env.getCompiledMethod dexIdx p.2 = some i →
    lookupOff mapsF.codeOffsets (CodeKey.cmKey i) = some mo.codeOffset ∧
      ((env.cm i).code = [] → mo.codeOffset = 0) ∧
      (mappingBytes env i = [] → mo.mappingTableOffset = 0) ∧
      (vmapBytes env i = [] → mo.vmapTableOffset = 0)) ∧
    (∀ s, env.findInvokeStub p.1 (df.shorty p.2) = some s →
      (env.stub s).code = [] → mo.invokeStubOffset = 0) ∧
    (env.findInvokeStub p.1 (df.shorty p.2) = none → mo.invokeStubOffset = 0)

/-- `ClassMethodFact` for a raw method item of the direct or virtual loop. -/
def MethodFact (env : Env) (mapsF : DedupMaps) (dexIdx : Nat)
    (df : DexFileData) (isDirect : Bool) (m : MethodItem)
    (mo : OatMethodOffsets) : Prop :=
  ClassMethodFact env mapsF dexIdx df
    (if isDirect then itemIsStatic m else false, m.memberIdx) mo

/-- Per-input facts of the code section, indexed by the running input
index. -/
def DexFacts (env : Env) (mapsF : DedupMaps) :
    Nat → List DexFileData → List (List (List OatMethodOffsets)) → Prop
  | _, [], [] => True
  | dexIdx, df :: dfs, moss :: mosss =>
    (List.Forall₂ (fun cd mosl => mosl.length = numMethodsOf cd ∧
      List.Forall₂ (ClassMethodFact env mapsF dexIdx df) (classItems cd) mosl)
      df.classDefs moss) ∧ DexFacts env mapsF (dexIdx + 1) dfs mosss
  | _, [], _ :: _ => False
  | _, _ :: _, [] => False

/-- Total byte size of the per-input descriptors. -/
def descTotal (dfs : List DexFileData) : Nat :=
  (dfs.map (fun df => df.location.length + 12)).sum

/-- Total byte size of the class tables (4 bytes per class definition). -/
def classTblTotal (dfs : List DexFileData) : Nat :=
  (dfs.map (fun df => 4 * df.classDefs.length)).sum

/-- Total byte size of the methods tables (28 bytes per method). -/
def methodsTblTotal (dfs : List DexFileData) : Nat :=
  (dfs.map (fun df =>
    (df.classDefs.map (fun cd => 28 * numMethodsOf cd)).sum)).sum

/-- The descriptor list with the classes offsets filled in, as
`InitOatClasses` leaves it. -/
def odfsWithOffsets : List DexFileData → Nat → List OatDexFileR
  | [], _ => []
  | df :: dfs, off =>
    ⟨df.location.length, df.location, df.checksum, off⟩ ::
      odfsWithOffsets dfs (off + 4 * df.classDefs.length)

/-- A small concrete build used to instantiate the theorems: a compiled
method of four code bytes, 4-byte alignment, no thumb delta, frame metadata
`(16, 5, 6)`, empty side tables. -/
def cmC : CompiledMethodData := ⟨[1, 2, 3, 4], 4, 0, 16, 5, 6, [], []⟩

/-- Concrete environment: method indices 0 and 1 of input 0 share the one
compiled-code buffer, every other method is abstract, there are no invoke
stubs, the header prelude is the single byte `7`, and the rolling checksum
is the stream length. -/
def envC : Env :=
  ⟨fun d m => if d == 0 && (m == 0 || m == 1) then some 0 else none,
    fun _ => cmC, fun _ _ => none, fun _ => ⟨[]⟩, 4, 4, 16, 1,
    fun _ _ => [7], fun l => l.length⟩

/-- Concrete input: one class with three direct methods — a static one and a
non-static one sharing the compiled buffer, and an abstract one. -/
def dfC : DexFileData :=
  ⟨[], 9, [some ⟨[⟨0, 8⟩, ⟨1, 0⟩, ⟨2, 0⟩], []⟩], fun _ => 0⟩

def dfsC : List DexFileData := [dfC]

/-- The layout record of the first concrete method. -/
def moC : OatMethodOffsets := ⟨104, 16, 5, 6, 0, 0, 0⟩

/-- The layout record of the concrete abstract method. -/
def moA : OatMethodOffsets := ⟨0, 16, 0, 0, 0, 0, 0⟩

/-! ## Basic lemmas -/

theorem le32_length (n : Nat) : (le32 n).length = 4 := rfl

theorem le16_length (n : Nat) : (le16 n).length = 2 := rfl

theorem frameWords_length (a b c : Nat) : (frameWords a b c).length = 12 := rfl

theorem omoBytes_length (m : OatMethodOffsets) : m.bytes.length = 28 := rfl

theorem flatten_le32_length (l : List Nat) :
    ((l.map le32).flatten).length = 4 * l.length := by
  induction l with
  | nil => rfl
  | cons x xs ih =>
    simp only [List.map_cons, List.flatten_cons, List.length_append,
      le32_length, ih, List.length_cons]
    omega

theorem flatten_le16_length (l : List Nat) :
    ((l.map le16).flatten).length = 2 * l.length := by
  induction l with
  | nil => rfl
  | cons x xs ih =>
    simp only [List.map_cons, List.flatten_cons, List.length_append,
      le16_length, ih, List.length_cons]
    omega

theorem classTableBytes_length (tbl : List Nat) :
    (classTableBytes tbl).length = 4 * tbl.length :=
  flatten_le32_length tbl

theorem methodsTableBytes_length (mos : List OatMethodOffsets) :
    (methodsTableBytes mos).length = 28 * mos.length := by
  induction mos with
  | nil => rfl
  | cons x xs ih =>
    simp only [methodsTableBytes, List.map_cons, List.flatten_cons,
      List.length_append, omoBytes_length, List.length_cons] at ih ⊢
    omega

theorem descriptorBytes_length (o : OatDexFileR)
    (h : o.locationData.length = o.locationSize) :
    (descriptorBytes o).length = odfSize o := by
  simp only [descriptorBytes, odfSize, List.length_append, le32_length, h]

theorem le_roundUp (x : Nat) {n : Nat} (hn : 0 < n) : x ≤ roundUp x n := by
  have h := Nat.div_add_mod (x + n - 1) n
  have h2 : (x + n - 1) % n < n := Nat.mod_lt _ hn
  rw [Nat.mul_comm] at h
  unfold roundUp
  omega

theorem roundUp_mod (x n : Nat) : roundUp x n % n = 0 :=
  Nat.mul_mod_left _ _

theorem lookupOff_cons {α : Type} [DecidableEq α] (k : α) (v : Nat)
    (m : List (α × Nat)) (k' : α) :
    lookupOff ((k, v) :: m) k' = if k = k' then some v else lookupOff m k' := rfl

theorem mapLe_refl {α : Type} [DecidableEq α] (m : List (α × Nat)) :
    mapLe m m := fun _ _ h => h

theorem mapLe_trans {α : Type} [DecidableEq α] {a b c : List (α × Nat)}
    (h1 : mapLe a b) (h2 : mapLe b c) : mapLe a c :=
  fun k v h => h2 k v (h1 k v h)

theorem mapLe_insert {α : Type} [DecidableEq α] {m : List (α × Nat)} {k : α}
    (v : Nat) (h : lookupOff m k = none) : mapLe m ((k, v) :: m) := by
  intro k' v' h'
  rw [lookupOff_cons]
  split
  · next heq => subst heq; simp [h] at h'
  · exact h'

theorem lookupOff_insert_self {α : Type} [DecidableEq α] (m : List (α × Nat))
    (k : α) (v : Nat) : lookupOff ((k, v) :: m) k = some v := by
  rw [lookupOff_cons, if_pos rfl]

theorem lookupOff_insert_ne {α : Type} [DecidableEq α] (m : List (α × Nat))
    {k k' : α} (v : Nat) (h : k ≠ k') :
    lookupOff ((k, v) :: m) k' = lookupOff m k' := by
  rw [lookupOff_cons, if_neg h]

theorem mapsLe_refl (m : DedupMaps) : mapsLe m m :=
  ⟨mapLe_refl _, mapLe_refl _, mapLe_refl _⟩

theorem mapsLe_trans {a b c : DedupMaps} (h1 : mapsLe a b) (h2 : mapsLe b c) :
    mapsLe a c :=
  ⟨mapLe_trans h1.1 h2.1, mapLe_trans h1.2.1 h2.2.1, mapLe_trans h1.2.2 h2.2.2⟩

theorem mapBounded_mono {α : Type} [DecidableEq α] {m : List (α × Nat)}
    {c c' : Nat} (h : mapBounded m c) (hcc : c ≤ c') : mapBounded m c' :=
  fun k v hv => lt_of_lt_of_le (h k v hv) hcc

theorem mapBounded_insert {α : Type} [DecidableEq α] {m : List (α × Nat)}
    {c v : Nat} {k : α} (h : mapBounded m c) (hv : v < c) :
    mapBounded ((k, v) :: m) c := by
  intro k' v' h'
  rw [lookupOff_cons] at h'
  split at h'
  · cases h'; exact hv
  · exact h k' v' h'

theorem mapsBounded_mono {maps : DedupMaps} {c c' : Nat}
    (h : mapsBounded maps c) (hcc : c ≤ c') : mapsBounded maps c' :=
  ⟨mapBounded_mono h.1 hcc, mapBounded_mono h.2.1 hcc, mapBounded_mono h.2.2 hcc⟩

theorem segAt_append {content : List Nat} {pos : Nat} {seg : List Nat}
    (h : segAt content pos seg) (more : List Nat) :
    segAt (content ++ more) pos seg := by
  obtain ⟨h1, h2⟩ := h
  constructor
  · simp only [List.length_append]; omega
  · rw [List.drop_append_eq_append_drop, List.take_append_eq_append_take, h2]
    have h3 : seg.length - (content.drop pos).length = 0 := by
      simp only [List.length_drop]; omega
    rw [h3, List.take_zero, List.append_nil]

theorem segAt_end (content seg : List Nat) :
    segAt (content ++ seg) content.length seg := by
  constructor
  · simp
  · rw [List.drop_append_eq_append_drop]
    simp

theorem WFile.ext_nil (f : WFile) : f.ext [] 0 = f := by
  cases f; simp [WFile.ext]

theorem WFile.ext_ext (f : WFile) (δ1 : List Nat) (n1 : Nat) (δ2 : List Nat)
    (n2 : Nat) : (f.ext δ1 n1).ext δ2 n2 = f.ext (δ1 ++ δ2) (n1 + n2) := by
  cases f; simp [WFile.ext, Nat.add_assoc]

theorem prefix_append_both {l1 l2 l3 : List Nat} (h : l2 <+: l3) :
    l1 ++ l2 <+: l1 ++ l3 := by
  obtain ⟨t, ht⟩ := h
  exact ⟨t, by rw [← ht, List.append_assoc]⟩

theorem simN_pure {cpre : Nat} {F : WFile → Option Nat × WFile}
    (hF : ∀ f, F f = (some cpre, f)) : SimN cpre F [] 0 := by
  intro f hf
  refine ⟨fun _ => ?_, fun k _ h2 h3 => absurd h3 (by omega)⟩
  rw [hF, WFile.ext_nil]
  simp

theorem simB_pure {cpre : Nat} {F : WFile → Bool × WFile}
    (hF : ∀ f, F f = (true, f)) : SimB cpre F [] 0 := by
  intro f hf
  refine ⟨fun _ => ?_, fun k _ h2 h3 => absurd h3 (by omega)⟩
  rw [hF, WFile.ext_nil]

theorem simN_writeRecord (cpre : Nat) (bytes : List Nat) (nm : String) :
    SimN cpre (writeRecord bytes nm cpre) bytes 1 := by
  intro f hf
  constructor
  · rintro (hnone | ⟨k, hk, hcase⟩)
    · simp [writeRecord, WFile.writeFully, hnone, WFile.ext]
    · have hne : k ≠ f.ops := by omega
      simp [writeRecord, WFile.writeFully, hk, hne, WFile.ext]
  · intro k hk h1 h2
    have hke : k = f.ops := by omega
    subst hke
    refine ⟨[], [nm ++ f.fname], List.nil_prefix, by simp, ?_⟩
    simp [writeRecord, WFile.writeFully, hk, WFile.addLog]

theorem simB_writeField (cpre : Nat) (bytes : List Nat) (nm : String) :
    SimB cpre (writeField bytes nm) bytes 1 := by
  intro f hf
  constructor
  · rintro (hnone | ⟨k, hk, hcase⟩)
    · simp [writeField, WFile.writeFully, hnone, WFile.ext]
    · have hne : k ≠ f.ops := by omega
      simp [writeField, WFile.writeFully, hk, hne, WFile.ext]
  · intro k hk h1 h2
    have hke : k = f.ops := by omega
    subst hke
    refine ⟨[], [nm ++ f.fname], List.nil_prefix, by simp, ?_⟩
    simp [writeField, WFile.writeFully, hk, WFile.addLog]

theorem simN_bind {cpre : Nat} {F1 : WFile → Option Nat × WFile}
    {δ1 : List Nat} {n1 : Nat} (h1 : SimN cpre F1 δ1 n1)
    (G : Nat → WFile → Option Nat × WFile) {δ2 : List Nat} {n2 : Nat}
    (h2 : SimN (cpre + δ1.length) (G (cpre + δ1.length)) δ2 n2) :
    SimN cpre (fun f => bindStep (F1 f) G) (δ1 ++ δ2) (n1 + n2) := by
  intro f hf
  have hf2 : (f.ext δ1 n1).content.length = cpre + δ1.length := by
    simp [WFile.ext, hf]
  constructor
  · rintro hok
    have e1 : F1 f = (some (cpre + δ1.length), f.ext δ1 n1) := by
      refine (h1 f hf).1 ?_
      rcases hok with hnone | ⟨k, hk, hcase⟩
      · exact Or.inl hnone
      · exact Or.inr ⟨k, hk, by omega⟩
    have e2 : G (cpre + δ1.length) (f.ext δ1 n1) =
        (some (cpre + δ1.length + δ2.length), (f.ext δ1 n1).ext δ2 n2) := by
      refine (h2 (f.ext δ1 n1) hf2).1 ?_
      rcases hok with hnone | ⟨k, hk, hcase⟩
      · exact Or.inl hnone
      · exact Or.inr ⟨k, hk, by simp [WFile.ext]; omega⟩
    simp only [bindStep, e1, e2, WFile.ext_ext]
    simp [Nat.add_assoc]
  · intro k hk hk1 hk2
    by_cases hw : k < f.ops + n1
    · obtain ⟨δ2', lg, hp, hlg, he⟩ := (h1 f hf).2 k hk hk1 hw
      refine ⟨δ2', lg, hp.trans (List.prefix_append _ _), hlg, ?_⟩
      simp only [bindStep, he]
    · have e1 : F1 f = (some (cpre + δ1.length), f.ext δ1 n1) :=
        (h1 f hf).1 (Or.inr ⟨k, hk, by omega⟩)
      obtain ⟨δ2', lg, hp, hlg, he⟩ := (h2 (f.ext δ1 n1) hf2).2 k
        (by simp [WFile.ext, hk]) (by simp [WFile.ext]; omega)
        (by simp [WFile.ext]; omega)
      refine ⟨δ1 ++ δ2', lg, prefix_append_both hp, hlg, ?_⟩
      simp only [WFile.ext] at he
      simp [bindStep, e1, he, WFile.ext, List.append_assoc]

theorem simB_seqB {cpre : Nat} {F1 : WFile → Bool × WFile} {δ1 : List Nat}
    {n1 : Nat} (h1 : SimB cpre F1 δ1 n1) {K : WFile → Bool × WFile}
    {δ2 : List Nat} {n2 : Nat} (h2 : SimB (cpre + δ1.length) K δ2 n2) :
    SimB cpre (fun f => seqB (F1 f) K) (δ1 ++ δ2) (n1 + n2) := by
  intro f hf
  have hf2 : (f.ext δ1 n1).content.length = cpre + δ1.length := by
    simp [WFile.ext, hf]
  constructor
  · rintro hok
    have e1 : F1 f = (true, f.ext δ1 n1) := by
      refine (h1 f hf).1 ?_
      rcases hok with hnone | ⟨k, hk, hcase⟩
      · exact Or.inl hnone
      · exact Or.inr ⟨k, hk, by omega⟩
    have e2 : K (f.ext δ1 n1) = (true, (f.ext δ1 n1).ext δ2 n2) := by
      refine (h2 (f.ext δ1 n1) hf2).1 ?_
      rcases hok with hnone | ⟨k, hk, hcase⟩
      · exact Or.inl hnone
      · exact Or.inr ⟨k, hk, by simp [WFile.ext]; omega⟩
    simp only [seqB, e1, e2, WFile.ext_ext]
  · intro k hk hk1 hk2
    by_cases hw : k < f.ops + n1
    · obtain ⟨δ2', lg, hp, hlg, he⟩ := (h1 f hf).2 k hk hk1 hw
      refine ⟨δ2', lg, hp.trans (List.prefix_append _ _), hlg, ?_⟩
      simp only [seqB, he]
    · have e1 : F1 f = (true, f.ext δ1 n1) :=
        (h1 f hf).1 (Or.inr ⟨k, hk, by omega⟩)
      obtain ⟨δ2', lg, hp, hlg, he⟩ := (h2 (f.ext δ1 n1) hf2).2 k
        (by simp [WFile.ext, hk]) (by simp [WFile.ext]; omega)
        (by simp [WFile.ext]; omega)
      refine ⟨δ1 ++ δ2', lg, prefix_append_both hp, hlg, ?_⟩
      simp only [WFile.ext] at he
      simp [seqB, e1, he, WFile.ext, List.append_assoc]

theorem simB_seqBLog {cpre : Nat} {F1 : WFile → Bool × WFile} {δ1 : List Nat}
    {n1 : Nat} (h1 : SimB cpre F1 δ1 n1) (nm : String)
    {K : WFile → Bool × WFile} {δ2 : List Nat} {n2 : Nat}
    (h2 : SimB (cpre + δ1.length) K δ2 n2) :
    SimB cpre (fun f => seqBLog (F1 f) nm K) (δ1 ++ δ2) (n1 + n2) := by
  intro f hf
  have hf2 : (f.ext δ1 n1).content.length = cpre + δ1.length := by
    simp [WFile.ext, hf]
  constructor
  · rintro hok
    have e1 : F1 f = (true, f.ext δ1 n1) := by
      refine (h1 f hf).1 ?_
      rcases hok with hnone | ⟨k, hk, hcase⟩
      · exact Or.inl hnone
      · exact Or.inr ⟨k, hk, by omega⟩
    have e2 : K (f.ext δ1 n1) = (true, (f.ext δ1 n1).ext δ2 n2) := by
      refine (h2 (f.ext δ1 n1) hf2).1 ?_
      rcases hok with hnone | ⟨k, hk, hcase⟩
      · exact Or.inl hnone
      · exact Or.inr ⟨k, hk, by simp [WFile.ext]; omega⟩
    simp only [seqBLog, e1, e2, WFile.ext_ext]
  · intro k hk hk1 hk2
    by_cases hw : k < f.ops + n1
    · obtain ⟨δ2', lg, hp, hlg, he⟩ := (h1 f hf).2 k hk hk1 hw
      refine ⟨δ2', lg ++ [nm ++ f.fname], hp.trans (List.prefix_append _ _),
        by simp, ?_⟩
      simp [seqBLog, he, WFile.addLog, List.append_assoc]
    · have e1 : F1 f = (true, f.ext δ1 n1) :=
        (h1 f hf).1 (Or.inr ⟨k, hk, by omega⟩)
      obtain ⟨δ2', lg, hp, hlg, he⟩ := (h2 (f.ext δ1 n1) hf2).2 k
        (by simp [WFile.ext, hk]) (by simp [WFile.ext]; omega)
        (by simp [WFile.ext]; omega)
      refine ⟨δ1 ++ δ2', lg, prefix_append_both hp, hlg, ?_⟩
      simp only [WFile.ext] at he
      simp [seqBLog, e1, he, WFile.ext, List.append_assoc]

theorem simN_seekAlign_zero (cpre aligned : Nat) (nm : String)
    (h : aligned - cpre = 0) : SimN cpre (seekAlign cpre aligned nm) [] 0 := by
  apply simN_pure
  intro f
  simp [seekAlign, h]

theorem simN_seekAlign_pos (cpre aligned : Nat) (nm : String)
    (h : cpre ≤ aligned) (hne : aligned - cpre ≠ 0) :
    SimN cpre (seekAlign cpre aligned nm)
      (List.replicate (aligned - cpre) 0) 1 := by
  intro f hf
  constructor
  · rintro (hnone | ⟨k, hk, hcase⟩)
    · have heq : f.content.length + (aligned - cpre) = aligned := by omega
      simp [seekAlign, hne, WFile.seekForward, hnone, heq, WFile.ext]
    · have hne2 : k ≠ f.ops := by omega
      have heq : f.content.length + (aligned - cpre) = aligned := by omega
      simp [seekAlign, hne, WFile.seekForward, hk, hne2, heq, WFile.ext]
  · intro k hk h1 h2
    have hke : k = f.ops := by omega
    subst hke
    refine ⟨[], [nm ++ f.fname], List.nil_prefix, by simp, ?_⟩
    simp [seekAlign, hne, WFile.seekForward, hk, WFile.addLog]

theorem simN_artifactEmit_skip {α : Type} [DecidableEq α] (m : List (α × Nat))
    (k : α) (cpre probe stored : Nat) (bytes : List Nat) (nm : String)
    (hsome : (lookupOff m k).isSome = true) (hne : probe ≠ stored) :
    SimN cpre (artifactEmit m k probe stored bytes nm cpre) [] 0 := by
  apply simN_pure
  intro f
  simp [artifactEmit, hsome, hne]

theorem simN_artifactEmit_write {α : Type} [DecidableEq α] (m : List (α × Nat))
    (k : α) (cpre probe stored : Nat) (bytes : List Nat) (nm : String)
    (hcond : lookupOff m k = none ∨ probe = stored) :
    SimN cpre (artifactEmit m k probe stored bytes nm cpre) bytes 1 := by
  intro f hf
  have he : artifactEmit m k probe stored bytes nm cpre f =
      writeRecord bytes nm cpre f := by
    rcases hcond with h | h
    · simp [artifactEmit, h]
    · simp [artifactEmit, h]
  have hw := simN_writeRecord cpre bytes nm f hf
  constructor
  · intro hok
    rw [he]
    exact hw.1 hok
  · intro k' hk' h1 h2
    obtain ⟨δ2, lg, hp, hlg, hres⟩ := hw.2 k' hk' h1 h2
    exact ⟨δ2, lg, hp, hlg, by rw [he]; exact hres⟩

theorem simB_writeOatDexFile (cpre : Nat) (o : OatDexFileR) :
    SimB cpre (writeOatDexFile o) (descriptorBytes o) 4 := by
  have h := simB_seqB (simB_writeField cpre (le32 o.locationSize)
      "Failed to write dex file location length to ")
    (simB_seqB (simB_writeField _ o.locationData
        "Failed to write dex file location data to ")
      (simB_seqB (simB_writeField _ (le32 o.checksum)
          "Failed to write dex file checksum to ")
        (simB_writeField _ (le32 o.classesOffset)
          "Failed to write classes offset to ")))
  have e : descriptorBytes o = le32 o.locationSize ++ (o.locationData ++
      (le32 o.checksum ++ le32 o.classesOffset)) := by
    simp [descriptorBytes]
  rw [e]
  exact h

theorem simB_writeDexFileTable (os : List OatDexFileR) : ∀ cpre : Nat,
    SimB cpre (writeDexFileTable os) ((os.map descriptorBytes).flatten)
      (4 * os.length) := by
  induction os with
  | nil => exact fun cpre => simB_pure (fun f => rfl)
  | cons o os ih =>
    intro cpre
    have h := simB_seqBLog (simB_writeOatDexFile cpre o)
      "Failed to write oat dex information to "
      (ih (cpre + (descriptorBytes o).length))
    simp only [List.map_cons, List.flatten_cons, List.length_cons]
    rw [show 4 * (os.length + 1) = 4 + 4 * os.length by ring]
    exact h

theorem simB_writeClassesTable (tbls : List (List Nat)) : ∀ cpre : Nat,
    SimB cpre (writeClassesTable tbls) ((tbls.map classTableBytes).flatten)
      tbls.length := by
  induction tbls with
  | nil => exact fun cpre => simB_pure (fun f => rfl)
  | cons tbl tbls ih =>
    intro cpre
    have h := simB_seqBLog
      (simB_writeField cpre (classTableBytes tbl) "Failed to write methods offsets to ")
      "Failed to write oat classes information to "
      (ih (cpre + (classTableBytes tbl).length))
    simp only [List.map_cons, List.flatten_cons, List.length_cons]
    rw [show tbls.length + 1 = 1 + tbls.length by ring]
    exact h

theorem simB_writeMethodsTable (moss : List (List OatMethodOffsets)) :
    ∀ cpre : Nat,
    SimB cpre (writeMethodsTable moss) ((moss.map methodsTableBytes).flatten)
      moss.length := by
  induction moss with
  | nil => exact fun cpre => simB_pure (fun f => rfl)
  | cons mos moss ih =>
    intro cpre
    have h := simB_seqBLog
      (simB_writeField cpre (methodsTableBytes mos) "Failed to write method offsets to ")
      "Failed to write oat methods information to "
      (ih (cpre + (methodsTableBytes mos).length))
    simp only [List.map_cons, List.flatten_cons, List.length_cons]
    rw [show moss.length + 1 = 1 + moss.length by ring]
    exact h

theorem simB_writeTables (cpre : Nat) (L : LayoutResult) :
    SimB cpre (writeTables L)
      ((L.oatDexFiles.map descriptorBytes).flatten ++
        ((L.classTables.map classTableBytes).flatten ++
          (L.oatMethods.flatten.map methodsTableBytes).flatten))
      (4 * L.oatDexFiles.length +
        (L.classTables.length + L.oatMethods.flatten.length)) :=
  simB_seqB (simB_writeDexFileTable _ _)
    (simB_seqB (simB_writeClassesTable _ _) (simB_writeMethodsTable _ _))

theorem simN_writeCode (cpre : Nat) (L : LayoutResult)
    (h : cpre + L.padLen = L.executableOffset) :
    SimN cpre (writeCode L) (List.replicate L.padLen 0) 1 := by
  intro f hf
  constructor
  · rintro (hnone | ⟨k, hk, hcase⟩)
    · have heq : f.content.length + L.padLen = L.executableOffset := by omega
      simp [writeCode, WFile.seekForward, hnone, heq, WFile.ext]
      omega
    · have hne2 : k ≠ f.ops := by omega
      have heq : f.content.length + L.padLen = L.executableOffset := by omega
      simp [writeCode, WFile.seekForward, hk, hne2, heq, WFile.ext]
      omega
  · intro k hk h1 h2
    have hke : k = f.ops := by omega
    subst hke
    refine ⟨[], ["Failed to seek to oat code section in " ++ f.fname],
      List.nil_prefix, by simp, ?_⟩
    simp [writeCode, WFile.seekForward, hk, WFile.addLog]

/-! ## Layout-pass lemmas -/

theorem artifactLayout_main {α : Type} [DecidableEq α] {m : List (α × Nat)}
    {k : α} {extra : Nat} {bytes : List Nat} {offset : Nat} {trace : List Nat}
    {v off' : Nat} {m' : List (α × Nat)} {tr' : List Nat}
    (h : artifactLayout m k extra bytes offset trace = (v, off', m', tr')) :
    offset ≤ off' ∧ off' ≤ offset + bytes.length ∧ mapLe m m' ∧
      lookupOff m' k = some v ∧
      (∀ k2, k2 ≠ k → lookupOff m' k2 = lookupOff m k2) ∧
      ((lookupOff m k = none ∧ off' = offset + bytes.length ∧
          v = (if bytes.length = 0 then 0 else offset + extra) ∧
          m' = (k, v) :: m ∧ tr' = trace ++ bytes) ∨
        (lookupOff m k = some v ∧ off' = offset ∧ m' = m ∧ tr' = trace)) := by
  cases hl : lookupOff m k with
  | none =>
    have he : artifactLayout m k extra bytes offset trace =
        ((if bytes.length = 0 then 0 else offset + extra),
          offset + bytes.length,
          (k, if bytes.length = 0 then 0 else offset + extra) :: m,
          trace ++ bytes) := by
      simp [artifactLayout, hl]
    rw [h] at he
    simp only [Prod.mk.injEq] at he
    obtain ⟨h1, h2, h3, h4⟩ := he
    subst h2 h3 h4
    refine ⟨Nat.le_add_right _ _, Nat.le_refl _, ?_, ?_, ?_,
      Or.inl ⟨rfl, rfl, h1, by rw [h1], rfl⟩⟩
    · exact mapLe_insert _ hl
    · rw [h1]; exact lookupOff_insert_self _ _ _
    · intro k2 hk2
      exact lookupOff_insert_ne _ _ (Ne.symm hk2)
  | some prev =>
    have he : artifactLayout m k extra bytes offset trace =
        (prev, offset, m, trace) := by
      simp [artifactLayout, hl]
    rw [h] at he
    simp only [Prod.mk.injEq] at he
    obtain ⟨h1, h2, h3, h4⟩ := he
    subst h1 h2 h3 h4
    exact ⟨Nat.le_refl _, Nat.le_add_right _ _, mapLe_refl _,
      hl, fun _ _ => rfl, Or.inr ⟨rfl, rfl, rfl, rfl⟩⟩

/-- Preservation of the zero-sentinel invariant by one artifact step, for an
arbitrary assignment of byte contents to keys. -/
theorem artifactLayout_zeroPres {α : Type} [DecidableEq α]
    (bytesFn : α → List Nat) {m : List (α × Nat)} {k : α} {extra : Nat}
    {offset : Nat} {trace : List Nat} {v off' : Nat} {m' : List (α × Nat)}
    {tr' : List Nat}
    (h : artifactLayout m k extra (bytesFn k) offset trace = (v, off', m', tr'))
    (hz : ∀ k2 w, lookupOff m k2 = some w → bytesFn k2 = [] → w = 0) :
    ∀ k2 w, lookupOff m' k2 = some w → bytesFn k2 = [] → w = 0 := by
  obtain ⟨_, _, _, _, _, hcase⟩ := artifactLayout_main h
  rcases hcase with ⟨hnone, _, hv, hm, _⟩ | ⟨_, _, hm, _⟩
  · subst hm
    intro k2 w hw hb
    rw [lookupOff_cons] at hw
    split at hw
    · next heq =>
      cases hw
      subst heq
      rw [hb] at hv
      simpa using hv
    · exact hz k2 w hw hb
  · subst hm
    exact hz

/-- The zero-sentinel fact for the offset stored by one artifact step. -/
theorem artifactLayout_storedZero {α : Type} [DecidableEq α]
    {m : List (α × Nat)} {k : α} {extra : Nat} {bytes : List Nat}
    {offset : Nat} {trace : List Nat} {v off' : Nat} {m' : List (α × Nat)}
    {tr' : List Nat}
    (h : artifactLayout m k extra bytes offset trace = (v, off', m', tr'))
    (hz : ∀ w, lookupOff m k = some w → w = 0) (hb : bytes = []) : v = 0 := by
  obtain ⟨_, _, _, _, _, hcase⟩ := artifactLayout_main h
  rcases hcase with ⟨_, _, hv, _, _⟩ | ⟨hsome, _, _, _⟩
  · rw [hv, hb]; simp
  · exact hz v hsome

/-- One artifact step keeps the checksum trace and the key set in lockstep
with the independent replay. -/
theorem replay_match {α : Type} [DecidableEq α] {ks : List α}
    {m : List (α × Nat)} {k : α} {extra : Nat} {bytes : List Nat}
    {offset : Nat} {trace : List Nat} {v off' : Nat} {m' : List (α × Nat)}
    {tr' : List Nat}
    (h : artifactLayout m k extra bytes offset trace = (v, off', m', tr'))
    (hk : ∀ k2, k2 ∈ ks ↔ (lookupOff m k2).isSome) :
    tr' = trace ++ (replayArtifact ks k bytes).1 ∧
      (∀ k2, k2 ∈ (replayArtifact ks k bytes).2 ↔ (lookupOff m' k2).isSome) := by
  obtain ⟨_, _, _, _, hne, hcase⟩ := artifactLayout_main h
  rcases hcase with ⟨hnone, _, _, hm, htr⟩ | ⟨hsome, _, hm, htr⟩
  · have hknotin : k ∉ ks := by
      rw [hk]
      simp [hnone]
    subst hm htr
    refine ⟨by simp [replayArtifact, hknotin], ?_⟩
    intro k2
    by_cases hk2 : k2 = k
    · subst hk2
      simp [replayArtifact, hknotin, lookupOff_insert_self]
    · simp only [replayArtifact, if_neg hknotin]
      rw [lookupOff_insert_ne _ _ (Ne.symm hk2)]
      simp [hk2, hk k2]
  · have hkin : k ∈ ks := by
      rw [hk, hsome]
      rfl
    subst hm htr
    refine ⟨by simp [replayArtifact, hkin], ?_⟩
    intro k2
    simp [replayArtifact, hkin, hk k2]

/-- Everything the layout invariants need to know about the invoke-stub
step. -/
theorem stubLayout_spec (env : Env) (hwf : EnvWF env) (isStatic : Bool)
    (shorty : Nat) (offset : Nat) (maps : DedupMaps) (trace : List Nat)
    {so off' : Nat} {maps' : DedupMaps} {tr' : List Nat}
    (h : stubLayout env isStatic shorty offset maps trace =
      (so, off', maps', tr'))
    (hc : 0 < offset) (hb : mapsBounded maps offset) (hz : mapsZero env maps) :
    offset ≤ off' ∧ mapsLe maps maps' ∧ mapsBounded maps' off' ∧
      mapsZero env maps' ∧
      maps'.mappingTableOffsets = maps.mappingTableOffsets ∧
      maps'.vmapTableOffsets = maps.vmapTableOffsets ∧
      (∀ s, env.findInvokeStub isStatic shorty = some s →
        (env.stub s).code = [] → so = 0) ∧
      (env.findInvokeStub isStatic shorty = none → so = 0) ∧
      (∀ cks : List CodeKey,
        (∀ k2, k2 ∈ cks ↔ (lookupOff maps.codeOffsets k2).isSome) →
        tr' = trace ++ (stubReplay env isStatic shorty cks).1 ∧
        (∀ k2, k2 ∈ (stubReplay env isStatic shorty cks).2 ↔
          (lookupOff maps'.codeOffsets k2).isSome)) := by
  cases hstub : env.findInvokeStub isStatic shorty with
  | none =>
    have he : stubLayout env isStatic shorty offset maps trace =
        (0, offset, maps, trace) := by
      simp [stubLayout, hstub]
    rw [h] at he
    simp only [Prod.mk.injEq] at he
    obtain ⟨h1, h2, h3, h4⟩ := he
    subst h1 h2 h3 h4
    refine ⟨Nat.le_refl _, mapsLe_refl _, hb, hz, rfl, rfl, ?_, ?_, ?_⟩
    · intro s hs
      cases hs
    · intro _
      rfl
    · intro cks hk
      simp [stubReplay, hstub, hk]
  | some s =>
    have hal : offset ≤ roundUp offset env.isaAlignment :=
      le_roundUp _ hwf.isaAlignPos
    rcases hr : artifactLayout maps.codeOffsets (CodeKey.stubKey s) 0
        (env.stub s).code (roundUp offset env.isaAlignment) trace with
      ⟨v1, o1, m1, t1⟩
    have he : stubLayout env isStatic shorty offset maps trace =
        (v1, o1, { maps with codeOffsets := m1 }, t1) := by
      simp only [stubLayout, hstub, hr]
    rw [h] at he
    simp only [Prod.mk.injEq] at he
    obtain ⟨h1, h2, h3, h4⟩ := he
    subst h1 h2 h3 h4
    obtain ⟨hle1, hle2, hml, hlk, hlkne, hcase⟩ := artifactLayout_main hr
    have hbound : mapBounded m1 off' := by
      rcases hcase with ⟨hnone, ho, hv, hm, htr⟩ | ⟨hsome, ho, hm, htr⟩
      · subst hm
        refine mapBounded_insert (mapBounded_mono hb.1 (by omega)) ?_
        rw [hv]
        split
        · next hlen => omega
        · next hlen => omega
      · subst hm
        exact mapBounded_mono hb.1 (by omega)
    refine ⟨by omega, ⟨hml, mapLe_refl _, mapLe_refl _⟩,
      ⟨hbound, mapBounded_mono hb.2.1 (by omega),
        mapBounded_mono hb.2.2 (by omega)⟩,
      ⟨artifactLayout_zeroPres (codeKeyBytes env) hr hz.1, hz.2.1, hz.2.2⟩,
      rfl, rfl, ?_, ?_, ?_⟩
    · intro s2 hs2 hnil
      cases hs2
      exact artifactLayout_storedZero hr
        (fun w hw => hz.1 _ w hw hnil) hnil
    · intro hnone
      cases hnone
    · intro cks hk
      have := replay_match hr hk
      simpa [stubReplay, hstub] using this

/-- Everything the layout invariants need to know about
`InitOatCodeMethod`: cursor monotonicity, dedup-map growth, strict
boundedness of all recorded offsets by the new cursor, preservation of the
zero-sentinel invariant, agreement of the stored offsets with the dedup
maps, the zero-sentinel facts of the stored record, and lockstep with the
independent checksum replay. -/
theorem initMethod_spec (env : Env) (hwf : EnvWF env) (dexIdx : Nat)
    (df : DexFileData) (isStatic : Bool) (methodIdx : Nat) (c : Nat)
    (st : LayoutSt) {mo : OatMethodOffsets} {c' : Nat} {st' : LayoutSt}
    (h : initOatCodeMethod env dexIdx df isStatic methodIdx c st =
      (mo, c', st'))
    (hc : 0 < c) (hb : mapsBounded st.maps c) (hz : mapsZero env st.maps) :
    c ≤ c' ∧ mapsLe st.maps st'.maps ∧ mapsBounded st'.maps c' ∧
      mapsZero env st'.maps ∧
      (∀ i, env.getCompiledMethod dexIdx methodIdx = some i →
        lookupOff st'.maps.codeOffsets (CodeKey.cmKey i) = some mo.codeOffset ∧
          ((env.cm i).code = [] → mo.codeOffset = 0) ∧
          (mappingBytes env i = [] → mo.mappingTableOffset = 0) ∧
          (vmapBytes env i = [] → mo.vmapTableOffset = 0)) ∧
      (∀ s, env.findInvokeStub isStatic (df.shorty methodIdx) = some s →
        (env.stub s).code = [] → mo.invokeStubOffset = 0) ∧
      (env.findInvokeStub isStatic (df.shorty methodIdx) = none →
        mo.invokeStubOffset = 0) ∧
      (∀ ks, keysMatch ks st.maps →
        st'.trace = st.trace ++
          (methodReplay env dexIdx df isStatic methodIdx ks).1 ∧
        keysMatch (methodReplay env dexIdx df isStatic methodIdx ks).2
          st'.maps) := by
  cases hcm : env.getCompiledMethod dexIdx methodIdx with
  | none =>
    rcases hrs : stubLayout env isStatic (df.shorty methodIdx) (c + 12)
        ⟨st.maps.codeOffsets, st.maps.mappingTableOffsets,
          st.maps.vmapTableOffsets⟩
        (st.trace ++ frameWords env.stackAlignment 0 0) with ⟨vs, o5, maps5, t5⟩
    have he : initOatCodeMethod env dexIdx df isStatic methodIdx c st =
        (⟨0, env.stackAlignment, 0, 0, 0, 0, vs⟩, o5,
          ⟨maps5, t5⟩) := by
      simp only [initOatCodeMethod, hcm, hrs]
    rw [h] at he
    simp only [Prod.mk.injEq] at he
    obtain ⟨rfl, rfl, rfl⟩ := he
    obtain ⟨hs1, hs2, hs3, hs4, hs5, hs6, hs7, hs8, hs9⟩ :=
      stubLayout_spec env hwf isStatic (df.shorty methodIdx) (c + 12)
        ⟨st.maps.codeOffsets, st.maps.mappingTableOffsets,
          st.maps.vmapTableOffsets⟩
        (st.trace ++ frameWords env.stackAlignment 0 0) hrs (by omega)
        ⟨mapBounded_mono hb.1 (by omega), mapBounded_mono hb.2.1 (by omega),
          mapBounded_mono hb.2.2 (by omega)⟩
        ⟨hz.1, hz.2.1, hz.2.2⟩
    refine ⟨by omega, ?_, ?_, ?_, ?_, ?_, ?_, ?_⟩
    · exact ⟨hs2.1, hs2.2.1, hs2.2.2⟩
    · exact hs3
    · exact hs4
    · intro i hi
      cases hi
    · intro s hs hnil
      exact hs7 s hs hnil
    · intro hnone
      exact hs8 hnone
    · intro ks hk
      obtain ⟨ht, hkk⟩ := hs9 ks.codeKeys hk.1
      constructor
      · show t5 = st.trace ++ (methodReplay env dexIdx df isStatic methodIdx ks).1
        rw [ht]
        simp [methodReplay, hcm, List.append_assoc]
      · simp only [methodReplay, hcm]
        exact ⟨hkk, fun k2 => by rw [hs5]; exact hk.2.1 k2,
          fun k2 => by rw [hs6]; exact hk.2.2 k2⟩
  | some i =>
    have hal : c ≤ roundUp c (env.cm i).codeAlignment :=
      le_roundUp _ (hwf.cmAlignPos i)
    have hdelta : (env.cm i).codeDelta ≤ 1 := hwf.deltaLe i
    rcases hrc : artifactLayout st.maps.codeOffsets (CodeKey.cmKey i)
        (env.cm i).codeDelta (env.cm i).code
        (roundUp c (env.cm i).codeAlignment) st.trace with ⟨v1, o1, m1, t1⟩
    rcases hrm : artifactLayout st.maps.mappingTableOffsets i 0
        (mappingBytes env i) (o1 + 12)
        (t1 ++ frameWords (env.cm i).frameSizeInBytes (env.cm i).coreSpillMask
          (env.cm i).fpSpillMask) with ⟨vm, o3, mm, t3⟩
    rcases hrv : artifactLayout st.maps.vmapTableOffsets i 0
        (vmapBytes env i) o3 t3 with ⟨vv, o4, mv, t4⟩
    rcases hrs : stubLayout env isStatic (df.shorty methodIdx) o4
        ⟨m1, mm, mv⟩ t4 with ⟨vs, o5, maps5, t5⟩
    have he : initOatCodeMethod env dexIdx df isStatic methodIdx c st =
        (⟨v1, (env.cm i).frameSizeInBytes, (env.cm i).coreSpillMask,
          (env.cm i).fpSpillMask, vm, vv, vs⟩, o5, ⟨maps5, t5⟩) := by
      simp only [initOatCodeMethod, hcm, hrc, hrm, hrv, hrs]
    rw [h] at he
    simp only [Prod.mk.injEq] at he
    obtain ⟨rfl, rfl, rfl⟩ := he
    obtain ⟨hc1, hc2, hcml, hclk, hclkne, hccase⟩ := artifactLayout_main hrc
    obtain ⟨hm1, hm2, hmml, hmlk, hmlkne, hmcase⟩ := artifactLayout_main hrm
    obtain ⟨hv1, hv2, hvml, hvlk, hvlkne, hvcase⟩ := artifactLayout_main hrv
    have hbm1 : mapBounded m1 (o1 + 12) := by
      rcases hccase with ⟨hnone, ho, hv, hm, htr⟩ | ⟨hsome, ho, hm, htr⟩
      · subst hm
        refine mapBounded_insert (mapBounded_mono hb.1 (by omega)) ?_
        rw [hv]
        split
        · next hlen => omega
        · next hlen => omega
      · subst hm
        exact mapBounded_mono hb.1 (by omega)
    have hbmm : mapBounded mm o4 := by
      rcases hmcase with ⟨hnone, ho, hv, hm, htr⟩ | ⟨hsome, ho, hm, htr⟩
      · subst hm
        refine mapBounded_insert (mapBounded_mono hb.2.1 (by omega)) ?_
        rw [hv]
        split
        · next hlen => omega
        · next hlen => omega
      · subst hm
        exact mapBounded_mono hb.2.1 (by omega)
    have hbmv : mapBounded mv o4 := by
      rcases hvcase with ⟨hnone, ho, hv, hm, htr⟩ | ⟨hsome, ho, hm, htr⟩
      · subst hm
        refine mapBounded_insert (mapBounded_mono hb.2.2 (by omega)) ?_
        rw [hv]
        split
        · next hlen => omega
        · next hlen => omega
      · subst hm
        exact mapBounded_mono hb.2.2 (by omega)
    obtain ⟨hs1, hs2, hs3, hs4, hs5, hs6, hs7, hs8, hs9⟩ :=
      stubLayout_spec env hwf isStatic (df.shorty methodIdx) o4
        ⟨m1, mm, mv⟩ t4 hrs (by omega)
        ⟨mapBounded_mono hbm1 (by omega), hbmm, hbmv⟩
        ⟨artifactLayout_zeroPres (codeKeyBytes env) hrc hz.1,
          artifactLayout_zeroPres (mappingBytes env) hrm hz.2.1,
          artifactLayout_zeroPres (vmapBytes env) hrv hz.2.2⟩
    refine ⟨by omega, ?_, ?_, ?_, ?_, ?_, ?_, ?_⟩
    · refine ⟨mapLe_trans hcml hs2.1, ?_, ?_⟩
      · intro k2 v2 hv2
        rw [hs5]
        exact hmml k2 v2 hv2
      · intro k2 v2 hv2
        rw [hs6]
        exact hvml k2 v2 hv2
    · exact hs3
    · exact hs4
    · intro i2 hi2
      cases hi2
      refine ⟨hs2.1 _ _ hclk, ?_, ?_, ?_⟩
      · intro hnil
        exact artifactLayout_storedZero hrc
          (fun w hw => hz.1 _ w hw hnil) hnil
      · intro hnil
        exact artifactLayout_storedZero hrm
          (fun w hw => hz.2.1 _ w hw hnil) hnil
      · intro hnil
        exact artifactLayout_storedZero hrv
          (fun w hw => hz.2.2 _ w hw hnil) hnil
    · intro s hs hnil
      exact hs7 s hs hnil
    · intro hnone
      exact hs8 hnone
    · intro ks hk
      obtain ⟨htc, hkc⟩ := replay_match hrc hk.1
      obtain ⟨htm, hkm⟩ := replay_match hrm hk.2.1
      obtain ⟨htv, hkv⟩ := replay_match hrv hk.2.2
      obtain ⟨hts, hks⟩ := hs9 _ hkc
      constructor
      · show t5 = st.trace ++ (methodReplay env dexIdx df isStatic methodIdx ks).1
        rw [hts, htv, htm, htc]
        simp [methodReplay, hcm, List.append_assoc]
      · simp only [methodReplay, hcm]
        exact ⟨hks, fun k2 => by rw [hs5]; exact hkm k2,
          fun k2 => by rw [hs6]; exact hkv k2⟩

theorem simN_ext {cpre : Nat} {F' : WFile → Option Nat × WFile}
    {δ : List Nat} {n : Nat} (h : SimN cpre F' δ n)
    {F : WFile → Option Nat × WFile} (he : ∀ f, F f = F' f) :
    SimN cpre F δ n := by
  intro f hf
  obtain ⟨h1, h2⟩ := h f hf
  refine ⟨fun hok => by rw [he]; exact h1 hok, fun k hk hk1 hk2 => ?_⟩
  obtain ⟨δ2, lg, hp, hlg, hres⟩ := h2 k hk hk1 hk2
  exact ⟨δ2, lg, hp, hlg, by rw [he]; exact hres⟩

theorem simN_seekAlign (cpre aligned : Nat) (nm : String) (h : cpre ≤ aligned) :
    ∃ n, SimN cpre (seekAlign cpre aligned nm)
      (List.replicate (aligned - cpre) 0) n := by
  by_cases h0 : aligned - cpre = 0
  · refine ⟨0, ?_⟩
    have hz := simN_seekAlign_zero cpre aligned nm h0
    simpa [h0] using hz
  · exact ⟨1, simN_seekAlign_pos cpre aligned nm h h0⟩

/-- Simulation of one emit-side artifact block against its layout-side
counterpart: the emit pass writes the bytes exactly when the layout pass
inserted them (first occurrence, nonzero length), and otherwise writes
nothing and does not advance. -/
theorem artifactEmit_sim {α : Type} [DecidableEq α]
    {m mF : List (α × Nat)} {k : α} {extra : Nat} {bytes : List Nat}
    {offset : Nat} {trace : List Nat} {v off' : Nat} {m' : List (α × Nat)}
    {tr' : List Nat}
    (hr : artifactLayout m k extra bytes offset trace = (v, off', m', tr'))
    (hb : mapBounded m offset) (hc : 0 < offset)
    (hmono : mapLe m' mF) (nm : String) :
    ∃ δ n, off' = offset + δ.length ∧ (δ = bytes ∨ δ = []) ∧
      SimN offset (artifactEmit mF k (offset + extra) v bytes nm offset) δ n ∧
      ((lookupOff m k = none ∧ bytes.length ≠ 0) → δ = bytes) := by
  obtain ⟨hle1, hle2, hml, hlk, hlkne, hcase⟩ := artifactLayout_main hr
  have hlkF : lookupOff mF k = some v := hmono k v hlk
  rcases hcase with ⟨hnone, ho, hv, hm, htr⟩ | ⟨hsome, ho, hm, htr⟩
  · by_cases hlen : bytes.length = 0
    · have hv0 : v = 0 := by rw [hv, if_pos hlen]
      refine ⟨[], 0, by simp [ho, hlen], Or.inr rfl, ?_,
        fun hcon => absurd hlen hcon.2⟩
      refine simN_artifactEmit_skip mF k offset (offset + extra) v bytes nm
        (by rw [hlkF]; rfl) (by omega)
    · have hv1 : v = offset + extra := by rw [hv, if_neg hlen]
      refine ⟨bytes, 1, by omega, Or.inl rfl, ?_, fun _ => rfl⟩
      exact simN_artifactEmit_write mF k offset (offset + extra) v bytes nm
        (Or.inr hv1.symm)
  · have hvb : v < offset := hb k v hsome
    refine ⟨[], 0, by simp [ho], Or.inr rfl, ?_, fun hcon => by
      rw [hcon.1] at hsome; cases hsome⟩
    refine simN_artifactEmit_skip mF k offset (offset + extra) v bytes nm
      (by rw [hlkF]; rfl) (by omega)

theorem simN_bind2 {cpre mid : Nat} {F1 : WFile → Option Nat × WFile}
    {δ1 : List Nat} {n1 : Nat} (h1 : SimN cpre F1 δ1 n1)
    (G : Nat → WFile → Option Nat × WFile) {δ2 : List Nat} {n2 : Nat}
    (h2 : SimN mid (G mid) δ2 n2) (hmid : cpre + δ1.length = mid) :
    SimN cpre (fun f => bindStep (F1 f) G) (δ1 ++ δ2) (n1 + n2) := by
  refine simN_bind h1 G ?_
  rw [hmid]
  exact h2

theorem simN_writeFrameWords (cpre frame core fp : Nat) :
    SimN cpre (writeFrameWords frame core fp cpre)
      (le32 frame ++ (le32 core ++ le32 fp)) 3 := by
  refine simN_ext
    (simN_bind (simN_writeRecord cpre (le32 frame)
        "Failed to write method frame size to ")
      (fun c1 f1 => bindStep (writeRecord (le32 core)
          "Failed to write method core spill mask to " c1 f1)
        (fun c2 f2 => writeRecord (le32 fp)
          "Failed to write method fp spill mask to " c2 f2))
      (simN_bind (simN_writeRecord _ (le32 core)
          "Failed to write method core spill mask to ")
        (fun c2 f2 => writeRecord (le32 fp)
          "Failed to write method fp spill mask to " c2 f2)
        (simN_writeRecord _ (le32 fp)
          "Failed to write method fp spill mask to ")))
    (fun f => by simp only [writeFrameWords])

/-- Simulation of the emit-side invoke-stub block against the layout-side
invoke-stub step. -/
theorem stubBlock_sim (env : Env) (hwf : EnvWF env) (isStatic : Bool)
    (shorty : Nat) (offset : Nat) (maps : DedupMaps) (trace : List Nat)
    {so off' : Nat} {maps' : DedupMaps} {tr' : List Nat}
    (h : stubLayout env isStatic shorty offset maps trace =
      (so, off', maps', tr'))
    (hc : 0 < offset) (hb : mapBounded maps.codeOffsets offset)
    {mapsF : DedupMaps} (hmono : mapLe maps'.codeOffsets mapsF.codeOffsets)
    (mo : OatMethodOffsets) (hso : mo.invokeStubOffset = so) :
    ∃ δ n, off' = offset + δ.length ∧
      SimN offset (writeInvokeStub env mapsF isStatic shorty mo offset) δ n ∧
      (∀ i2, lookupOff maps'.codeOffsets (CodeKey.cmKey i2) =
        lookupOff maps.codeOffsets (CodeKey.cmKey i2)) ∧
      maps'.mappingTableOffsets = maps.mappingTableOffsets ∧
      maps'.vmapTableOffsets = maps.vmapTableOffsets ∧
      mapLe maps.codeOffsets maps'.codeOffsets := by
  cases hstub : env.findInvokeStub isStatic shorty with
  | none =>
    have he : stubLayout env isStatic shorty offset maps trace =
        (0, offset, maps, trace) := by
      simp [stubLayout, hstub]
    rw [h] at he
    simp only [Prod.mk.injEq] at he
    obtain ⟨h1, h2, h3, h4⟩ := he
    subst h1 h2 h3 h4
    refine ⟨[], 0, by simp, ?_, fun _ => rfl, rfl, rfl, mapLe_refl _⟩
    exact simN_pure (fun f => by simp [writeInvokeStub, hstub])
  | some s =>
    have hal : offset ≤ roundUp offset env.isaAlignment :=
      le_roundUp _ hwf.isaAlignPos
    rcases hr : artifactLayout maps.codeOffsets (CodeKey.stubKey s) 0
        (env.stub s).code (roundUp offset env.isaAlignment) trace with
      ⟨v1, o1, m1, t1⟩
    have he : stubLayout env isStatic shorty offset maps trace =
        (v1, o1, { maps with codeOffsets := m1 }, t1) := by
      simp only [stubLayout, hstub, hr]
    rw [h] at he
    simp only [Prod.mk.injEq] at he
    obtain ⟨h1, h2, h3, h4⟩ := he
    subst h1 h2 h3 h4
    obtain ⟨hle1, hle2, hml, hlk, hlkne, hcase⟩ := artifactLayout_main hr
    obtain ⟨ns, hs⟩ := simN_seekAlign offset (roundUp offset env.isaAlignment)
      "Failed to seek to align invoke stub code in " hal
    obtain ⟨δe, ne, hlenE, hshapeE, hsimE, hmissE⟩ :=
      artifactEmit_sim hr (mapBounded_mono hb hal) (by omega) hmono
        "Failed to write invoke stub code to "
    rw [← hso] at hsimE
    refine ⟨List.replicate (roundUp offset env.isaAlignment - offset) 0 ++ δe,
      ns + ne, by simp [List.length_replicate]; omega, ?_, ?_, rfl, rfl, hml⟩
    · refine simN_ext (simN_bind2 hs
        (fun c1 f1 => artifactEmit mapsF.codeOffsets (CodeKey.stubKey s) c1
          mo.invokeStubOffset (env.stub s).code
          "Failed to write invoke stub code to " c1 f1) hsimE
        (by simp [List.length_replicate]; omega))
        (fun f => by simp only [writeInvokeStub, hstub])
    · intro i2
      exact hlkne (CodeKey.cmKey i2) (by simp)

/-- The emit pass reproduces one layout method step exactly: started at the
layout cursor, `WriteCodeMethod` succeeds (absent an injected failure),
appends exactly the bytes the layout pass reserved, ends at the layout
cursor after the method, and extends the code-placement invariant. -/
theorem initMethod_sim (env : Env) (hwf : EnvWF env) (dexIdx : Nat)
    (df : DexFileData) (isStatic : Bool) (methodIdx : Nat) (c : Nat)
    (st : LayoutSt) {mo : OatMethodOffsets} {c' : Nat} {st' : LayoutSt}
    (h : initOatCodeMethod env dexIdx df isStatic methodIdx c st =
      (mo, c', st'))
    (hc : 0 < c) (hb : mapsBounded st.maps c)
    {mapsF : DedupMaps} (hmono : mapsLe st'.maps mapsF) :
    ∃ δ n, c' = c + δ.length ∧
      SimN c (writeCodeMethod env mapsF dexIdx df mo isStatic methodIdx c) δ n ∧
      (∀ content : List Nat, content.length = c →
        codePlacement env st.maps.codeOffsets content →
        codePlacement env st'.maps.codeOffsets (content ++ δ)) := by
  cases hcm : env.getCompiledMethod dexIdx methodIdx with
  | none =>
    rcases hrs : stubLayout env isStatic (df.shorty methodIdx) (c + 12)
        ⟨st.maps.codeOffsets, st.maps.mappingTableOffsets,
          st.maps.vmapTableOffsets⟩
        (st.trace ++ frameWords env.stackAlignment 0 0) with ⟨vs, o5, maps5, t5⟩
    have he : initOatCodeMethod env dexIdx df isStatic methodIdx c st =
        (⟨0, env.stackAlignment, 0, 0, 0, 0, vs⟩, o5, ⟨maps5, t5⟩) := by
      simp only [initOatCodeMethod, hcm, hrs]
    rw [h] at he
    simp only [Prod.mk.injEq] at he
    obtain ⟨rfl, rfl, rfl⟩ := he
    obtain ⟨δD, nD, hlenD, hsimD, hcmpres, hmapeq, hvmapeq, hmaple⟩ :=
      stubBlock_sim env hwf isStatic (df.shorty methodIdx) (c + 12)
        ⟨st.maps.codeOffsets, st.maps.mappingTableOffsets,
          st.maps.vmapTableOffsets⟩
        (st.trace ++ frameWords env.stackAlignment 0 0) hrs (by omega)
        (mapBounded_mono hb.1 (by omega)) hmono.1
        ⟨0, env.stackAlignment, 0, 0, 0, 0, vs⟩ rfl
    refine ⟨(le32 0 ++ (le32 0 ++ le32 0)) ++ δD, 3 + nD, ?_, ?_, ?_⟩
    · simp only [List.length_append] at hlenD ⊢
      simp only [le32_length]
      omega
    · refine simN_ext (simN_bind2 (simN_writeFrameWords c 0 0 0)
        (fun c2 f2 => writeInvokeStub env mapsF isStatic (df.shorty methodIdx)
          ⟨0, env.stackAlignment, 0, 0, 0, 0, vs⟩ c2 f2) hsimD
        (by simp [le32])) ?_
      intro f
      simp [writeCodeMethod, hcm, writeMethodCode, writeSideTables, bindStep]
    · intro content hclen hpl i2 v2 hlk2 hcode2
      rw [hcmpres i2] at hlk2
      obtain ⟨hd, hseg⟩ := hpl i2 v2 hlk2 hcode2
      exact ⟨hd, segAt_append hseg _⟩
  | some i =>
    have hal : c ≤ roundUp c (env.cm i).codeAlignment :=
      le_roundUp _ (hwf.cmAlignPos i)
    rcases hrc : artifactLayout st.maps.codeOffsets (CodeKey.cmKey i)
        (env.cm i).codeDelta (env.cm i).code
        (roundUp c (env.cm i).codeAlignment) st.trace with ⟨v1, o1, m1, t1⟩
    rcases hrm : artifactLayout st.maps.mappingTableOffsets i 0
        (mappingBytes env i) (o1 + 12)
        (t1 ++ frameWords (env.cm i).frameSizeInBytes (env.cm i).coreSpillMask
          (env.cm i).fpSpillMask) with ⟨vm, o3, mm, t3⟩
    rcases hrv : artifactLayout st.maps.vmapTableOffsets i 0
        (vmapBytes env i) o3 t3 with ⟨vv, o4, mv, t4⟩
    rcases hrs : stubLayout env isStatic (df.shorty methodIdx) o4
        ⟨m1, mm, mv⟩ t4 with ⟨vs, o5, maps5, t5⟩
    have he : initOatCodeMethod env dexIdx df isStatic methodIdx c st =
        (⟨v1, (env.cm i).frameSizeInBytes, (env.cm i).coreSpillMask,
          (env.cm i).fpSpillMask, vm, vv, vs⟩, o5, ⟨maps5, t5⟩) := by
      simp only [initOatCodeMethod, hcm, hrc, hrm, hrv, hrs]
    rw [h] at he
    simp only [Prod.mk.injEq] at he
    obtain ⟨rfl, rfl, rfl⟩ := he
    obtain ⟨hc1, hc2, hcml, hclk, hclkne, hccase⟩ := artifactLayout_main hrc
    obtain ⟨hm1, hm2, hmml, hmlk, hmlkne, hmcase⟩ := artifactLayout_main hrm
    obtain ⟨hv1a, hv2a, hvml, hvlk, hvlkne, hvcase⟩ := artifactLayout_main hrv
    have hbm1 : mapBounded m1 (o1 + 12) := by
      rcases hccase with ⟨hnone, ho, hv, hm, htr⟩ | ⟨hsome, ho, hm, htr⟩
      · subst hm
        refine mapBounded_insert (mapBounded_mono hb.1 (by omega)) ?_
        rw [hv]
        have hd := hwf.deltaLe i
        split
        · next hlen => omega
        · next hlen => omega
      · subst hm
        exact mapBounded_mono hb.1 (by omega)
    obtain ⟨δD, nD, hlenD, hsimD, hcmpres, hmapeq, hvmapeq, hmaple⟩ :=
      stubBlock_sim env hwf isStatic (df.shorty methodIdx) o4
        ⟨m1, mm, mv⟩ t4 hrs (by omega) (mapBounded_mono hbm1 (by omega))
        hmono.1 ⟨v1, (env.cm i).frameSizeInBytes, (env.cm i).coreSpillMask,
          (env.cm i).fpSpillMask, vm, vv, vs⟩ rfl
    obtain ⟨ns, hseek⟩ := simN_seekAlign c (roundUp c (env.cm i).codeAlignment)
      "Failed to seek to align oat code in " hal
    obtain ⟨δA, nA, hlenA, hshapeA, hsimA, hmissA⟩ :=
      artifactEmit_sim hrc (mapBounded_mono hb.1 hal) (by omega)
        (mapLe_trans hmaple hmono.1) "Failed to write method code to "
    obtain ⟨δM, nM, hlenM, hshapeM, hsimM, hmissM⟩ :=
      artifactEmit_sim hrm (mapBounded_mono hb.2.1 (by omega)) (by omega)
        (fun k v hv => hmono.2.1 k v (by rw [hmapeq]; exact hv))
        "Failed to write mapping table to "
    obtain ⟨δV, nV, hlenV, hshapeV, hsimV, hmissV⟩ :=
      artifactEmit_sim hrv (mapBounded_mono hb.2.2 (by omega)) (by omega)
        (fun k v hv => hmono.2.2 k v (by rw [hvmapeq]; exact hv))
        "Failed to write vmap table to "
    have hA : SimN c (writeMethodCode env mapsF (some i)
        ⟨v1, (env.cm i).frameSizeInBytes, (env.cm i).coreSpillMask,
          (env.cm i).fpSpillMask, vm, vv, vs⟩ c)
        (List.replicate (roundUp c (env.cm i).codeAlignment - c) 0 ++ δA)
        (ns + nA) := by
      refine simN_ext (simN_bind2 hseek
        (fun c1 f1 => artifactEmit mapsF.codeOffsets (CodeKey.cmKey i)
          (c1 + (env.cm i).codeDelta) v1 (env.cm i).code
          "Failed to write method code to " c1 f1) hsimA
        (by simp [List.length_replicate]; omega)) ?_
      intro f
      simp only [writeMethodCode]
    have hC : SimN (o1 + 12) (writeSideTables env mapsF (some i)
        ⟨v1, (env.cm i).frameSizeInBytes, (env.cm i).coreSpillMask,
          (env.cm i).fpSpillMask, vm, vv, vs⟩ (o1 + 12))
        (δM ++ δV) (nM + nV) := by
      refine simN_ext (simN_bind2 hsimM
        (fun c1 f1 => artifactEmit mapsF.vmapTableOffsets i c1 vv
          (vmapBytes env i) "Failed to write vmap table to " c1 f1) hsimV
        (by omega)) ?_
      intro f
      simp only [writeSideTables, Nat.add_zero]
    refine ⟨(List.replicate (roundUp c (env.cm i).codeAlignment - c) 0 ++ δA)
      ++ ((le32 (env.cm i).frameSizeInBytes ++ (le32 (env.cm i).coreSpillMask
        ++ le32 (env.cm i).fpSpillMask)) ++ ((δM ++ δV) ++ δD)),
      (ns + nA) + (3 + (nM + nV + nD)), ?_, ?_, ?_⟩
    · simp only [List.length_append, List.length_replicate, le32_length]
      omega
    · refine simN_ext (simN_bind2 hA
        (fun c1 f1 => bindStep (writeFrameWords (env.cm i).frameSizeInBytes
            (env.cm i).coreSpillMask (env.cm i).fpSpillMask c1 f1)
          (fun c2 f2 => bindStep (writeSideTables env mapsF (some i)
              ⟨v1, (env.cm i).frameSizeInBytes, (env.cm i).coreSpillMask,
                (env.cm i).fpSpillMask, vm, vv, vs⟩ c2 f2)
            (fun c3 f3 => writeInvokeStub env mapsF isStatic
              (df.shorty methodIdx)
              ⟨v1, (env.cm i).frameSizeInBytes, (env.cm i).coreSpillMask,
                (env.cm i).fpSpillMask, vm, vv, vs⟩ c3 f3)))
        (simN_bind2 (simN_writeFrameWords o1 (env.cm i).frameSizeInBytes
            (env.cm i).coreSpillMask (env.cm i).fpSpillMask)
          (fun c2 f2 => bindStep (writeSideTables env mapsF (some i)
              ⟨v1, (env.cm i).frameSizeInBytes, (env.cm i).coreSpillMask,
                (env.cm i).fpSpillMask, vm, vv, vs⟩ c2 f2)
            (fun c3 f3 => writeInvokeStub env mapsF isStatic
              (df.shorty methodIdx)
              ⟨v1, (env.cm i).frameSizeInBytes, (env.cm i).coreSpillMask,
                (env.cm i).fpSpillMask, vm, vv, vs⟩ c3 f3))
          (simN_bind2 hC
            (fun c3 f3 => writeInvokeStub env mapsF isStatic
              (df.shorty methodIdx)
              ⟨v1, (env.cm i).frameSizeInBytes, (env.cm i).coreSpillMask,
                (env.cm i).fpSpillMask, vm, vv, vs⟩ c3 f3)
            hsimD (by simp only [List.length_append]; omega))
          (by simp [le32]))
        (by simp only [List.length_append, List.length_replicate]; omega)) ?_
      intro f
      simp only [writeCodeMethod, hcm]
    · intro content hclen hpl i2 v2 hlk2 hcode2
      rw [hcmpres i2] at hlk2
      rcases hccase with ⟨hnone, ho, hv, hm, htr⟩ | ⟨hsome, ho, hm, htr⟩
      · subst hm
        by_cases hi2 : CodeKey.cmKey i = CodeKey.cmKey i2
        · obtain rfl : i = i2 := by cases hi2; rfl
          rw [lookupOff_insert_self] at hlk2
          cases hlk2
          have hlen0 : (env.cm i).code.length ≠ 0 := by
            intro hcon
            exact hcode2 (List.length_eq_zero.mp hcon)
          have hδA : δA = (env.cm i).code := hmissA ⟨hnone, hlen0⟩
          have hv1e : v1 = roundUp c (env.cm i).codeAlignment +
              (env.cm i).codeDelta := by
            rw [hv, if_neg hlen0]
          constructor
          · omega
          · have hplen : (content ++ List.replicate
                (roundUp c (env.cm i).codeAlignment - c) 0).length =
                roundUp c (env.cm i).codeAlignment := by
              simp [hclen, List.length_replicate]
              omega
            have hseg := segAt_end (content ++ List.replicate
              (roundUp c (env.cm i).codeAlignment - c) 0) (env.cm i).code
            rw [hplen] at hseg
            have hseg2 := segAt_append hseg
              ((le32 (env.cm i).frameSizeInBytes ++ (le32 (env.cm i).coreSpillMask
                ++ le32 (env.cm i).fpSpillMask)) ++ ((δM ++ δV) ++ δD))
            have hveq : v1 - (env.cm i).codeDelta =
                roundUp c (env.cm i).codeAlignment := by omega
            rw [hveq]
            have hleq : ((content ++ List.replicate
                (roundUp c (env.cm i).codeAlignment - c) 0) ++ (env.cm i).code)
                ++ ((le32 (env.cm i).frameSizeInBytes ++
                  (le32 (env.cm i).coreSpillMask ++ le32 (env.cm i).fpSpillMask))
                  ++ ((δM ++ δV) ++ δD)) =
                content ++ ((List.replicate
                  (roundUp c (env.cm i).codeAlignment - c) 0 ++ δA)
                  ++ ((le32 (env.cm i).frameSizeInBytes ++
                    (le32 (env.cm i).coreSpillMask ++ le32 (env.cm i).fpSpillMask))
                    ++ ((δM ++ δV) ++ δD))) := by
              rw [hδA]
              simp [List.append_assoc]
            rw [hleq] at hseg2
            exact hseg2
        · rw [lookupOff_insert_ne _ _ hi2] at hlk2
          obtain ⟨hd, hseg⟩ := hpl i2 v2 hlk2 hcode2
          exact ⟨hd, segAt_append hseg _⟩
      · subst hm
        obtain ⟨hd, hseg⟩ := hpl i2 v2 hlk2 hcode2
        exact ⟨hd, segAt_append hseg _⟩

/-- The combined layout/emit induction over one method list. -/
theorem initMethodList_spec (env : Env) (hwf : EnvWF env) (dexIdx : Nat)
    (df : DexFileData) (isDirect : Bool) :
    ∀ (ms : List MethodItem) (c : Nat) (st : LayoutSt)
      {mos : List OatMethodOffsets} {c' : Nat} {st' : LayoutSt},
    initOatCodeMethodList env dexIdx df isDirect ms c st = (mos, c', st') →
    0 < c → mapsBounded st.maps c → mapsZero env st.maps →
    ∀ {mapsF : DedupMaps}, mapsLe st'.maps mapsF →
    c ≤ c' ∧ mapsLe st.maps st'.maps ∧ mapsBounded st'.maps c' ∧
      mapsZero env st'.maps ∧ mos.length = ms.length ∧
      List.Forall₂ (MethodFact env mapsF dexIdx df isDirect) ms mos ∧
      (∀ ks, keysMatch ks st.maps →
        st'.trace = st.trace ++
          (methodListReplay env dexIdx df isDirect ms ks).1 ∧
        keysMatch (methodListReplay env dexIdx df isDirect ms ks).2 st'.maps) ∧
      ∃ δ n, c' = c + δ.length ∧
        SimN c (writeCodeMethodList env mapsF dexIdx df isDirect ms mos c) δ n ∧
        (∀ content : List Nat, content.length = c →
          codePlacement env st.maps.codeOffsets content →
          codePlacement env st'.maps.codeOffsets (content ++ δ)) := by
  intro ms
  induction ms with
  | nil =>
    intro c st mos c' st' h hc hb hz mapsF hmono
    simp only [initOatCodeMethodList, Prod.mk.injEq] at h
    obtain ⟨rfl, rfl, rfl⟩ := h
    refine ⟨Nat.le_refl _, mapsLe_refl _, hb, hz, rfl, List.Forall₂.nil,
      fun ks hk => ⟨by simp [methodListReplay], by simpa [methodListReplay] using hk⟩,
      [], 0, by simp, ?_, ?_⟩
    · exact simN_pure (fun f => rfl)
    · intro content hclen hpl
      intro i2 v2 hlk2 hcode2
      obtain ⟨hd, hseg⟩ := hpl i2 v2 hlk2 hcode2
      exact ⟨hd, segAt_append hseg _⟩
  | cons m ms ih =>
    intro c st mos c' st' h hc hb hz mapsF hmono
    rcases hm : initOatCodeMethod env dexIdx df
        (if isDirect then itemIsStatic m else false) m.memberIdx c st with
      ⟨mo1, c1, st1⟩
    rcases ht : initOatCodeMethodList env dexIdx df isDirect ms c1 st1 with
      ⟨mos2, c2, st2⟩
    have he : initOatCodeMethodList env dexIdx df isDirect (m :: ms) c st =
        (mo1 :: mos2, c2, st2) := by
      simp only [initOatCodeMethodList, hm, ht]
    rw [h] at he
    simp only [Prod.mk.injEq] at he
    obtain ⟨rfl, rfl, rfl⟩ := he
    obtain ⟨hle1, hml1, hbd1, hz1, hstored1, hstub1, hstubn1, hrep1⟩ :=
      initMethod_spec env hwf dexIdx df _ m.memberIdx c st hm hc hb hz
    obtain ⟨hle2, hml2, hbd2, hz2, hlen2, hfacts2, hrep2, δ2, n2, hclen2,
      hsim2, hpl2⟩ :=
      ih c1 st1 ht (by omega) hbd1 hz1 hmono
    obtain ⟨δ1, n1, hclen1, hsim1, hpl1⟩ :=
      initMethod_sim env hwf dexIdx df _ m.memberIdx c st hm hc hb
        (mapsLe_trans hml2 hmono)
    refine ⟨by omega, mapsLe_trans hml1 hml2, hbd2, hz2,
      by simp [hlen2], ?_, ?_, ?_⟩
    · refine List.Forall₂.cons ?_ hfacts2
      refine ⟨?_, fun s hs hnil => hstub1 s hs hnil, fun hn => hstubn1 hn⟩
      intro i hi
      obtain ⟨hlk, hz0, hzm, hzv⟩ := hstored1 i hi
      exact ⟨hmono.1 _ _ (hml2.1 _ _ hlk), hz0, hzm, hzv⟩
    · intro ks hk
      obtain ⟨htr1, hkk1⟩ := hrep1 ks hk
      obtain ⟨htr2, hkk2⟩ := hrep2 _ hkk1
      constructor
      · rw [htr2, htr1]
        simp [methodListReplay, List.append_assoc]
      · simpa [methodListReplay] using hkk2
    · refine ⟨δ1 ++ δ2, n1 + n2, by simp; omega, ?_, ?_⟩
      · refine simN_ext (simN_bind2 hsim1
          (fun cc ff => writeCodeMethodList env mapsF dexIdx df isDirect ms
            mos2 cc ff) hsim2 (by omega)) ?_
        intro f
        simp only [writeCodeMethodList]
      · intro content hclen hpl
        have h1 := hpl1 content hclen hpl
        have h2 := hpl2 (content ++ δ1) (by simp [hclen]; omega) h1
        simpa [List.append_assoc] using h2

theorem forall2_map_left {α β γ : Type} {R : γ → β → Prop} (f : α → γ) :
    ∀ {l : List α} {l' : List β}, List.Forall₂ (fun a b => R (f a) b) l l' →
    List.Forall₂ R (l.map f) l'
  | [], [], _ => List.Forall₂.nil
  | _ :: _, _ :: _, List.Forall₂.cons h hs =>
    List.Forall₂.cons h (forall2_map_left f hs)

theorem forall2_append {α β : Type} {R : α → β → Prop} :
    ∀ {l1 : List α} {l2 : List β} {l3 : List α} {l4 : List β},
    List.Forall₂ R l1 l2 → List.Forall₂ R l3 l4 →
    List.Forall₂ R (l1 ++ l3) (l2 ++ l4)
  | [], [], _, _, List.Forall₂.nil, h2 => h2
  | _ :: _, _ :: _, _, _, List.Forall₂.cons h hs, h2 =>
    List.Forall₂.cons h (forall2_append hs h2)

/-- Growth-only form of the method-list induction (no reference to the
final maps), used to break the dependency cycle when chaining sibling
inductions. -/
theorem initMethodList_growth (env : Env) (hwf : EnvWF env) (dexIdx : Nat)
    (df : DexFileData) (isDirect : Bool) :
    ∀ (ms : List MethodItem) (c : Nat) (st : LayoutSt)
      {mos : List OatMethodOffsets} {c' : Nat} {st' : LayoutSt},
    initOatCodeMethodList env dexIdx df isDirect ms c st = (mos, c', st') →
    0 < c → mapsBounded st.maps c → mapsZero env st.maps →
    c ≤ c' ∧ mapsLe st.maps st'.maps ∧ mapsBounded st'.maps c' ∧
      mapsZero env st'.maps := by
  intro ms
  induction ms with
  | nil =>
    intro c st mos c' st' h hc hb hz
    simp only [initOatCodeMethodList, Prod.mk.injEq] at h
    obtain ⟨rfl, rfl, rfl⟩ := h
    exact ⟨Nat.le_refl _, mapsLe_refl _, hb, hz⟩
  | cons m ms ih =>
    intro c st mos c' st' h hc hb hz
    rcases hm : initOatCodeMethod env dexIdx df
        (if isDirect then itemIsStatic m else false) m.memberIdx c st with
      ⟨mo1, c1, st1⟩
    rcases ht : initOatCodeMethodList env dexIdx df isDirect ms c1 st1 with
      ⟨mos2, c2, st2⟩
    have he : initOatCodeMethodList env dexIdx df isDirect (m :: ms) c st =
        (mo1 :: mos2, c2, st2) := by
      simp only [initOatCodeMethodList, hm, ht]
    rw [h] at he
    simp only [Prod.mk.injEq] at he
    obtain ⟨rfl, rfl, rfl⟩ := he
    obtain ⟨hle1, hml1, hbd1, hz1, _, _, _, _⟩ :=
      initMethod_spec env hwf dexIdx df _ m.memberIdx c st hm hc hb hz
    obtain ⟨hle2, hml2, hbd2, hz2⟩ := ih c1 st1 ht (by omega) hbd1 hz1
    exact ⟨by omega, mapsLe_trans hml1 hml2, hbd2, hz2⟩

/-- The combined layout/emit induction over one class definition. -/
theorem initClassDef_spec (env : Env) (hwf : EnvWF env) (dexIdx : Nat)
    (df : DexFileData) (cd : Option ClassData) (c : Nat) (st : LayoutSt)
    {mos : List OatMethodOffsets} {c' : Nat} {st' : LayoutSt}
    (h : initOatCodeClassDef env dexIdx df cd c st = (mos, c', st'))
    (hc : 0 < c) (hb : mapsBounded st.maps c) (hz : mapsZero env st.maps)
    {mapsF : DedupMaps} (hmono : mapsLe st'.maps mapsF) :
    c ≤ c' ∧ mapsLe st.maps st'.maps ∧ mapsBounded st'.maps c' ∧
      mapsZero env st'.maps ∧ mos.length = numMethodsOf cd ∧
      List.Forall₂ (ClassMethodFact env mapsF dexIdx df) (classItems cd) mos ∧
      (∀ ks, keysMatch ks st.maps →
        st'.trace ++ methodsTableBytes mos = st.trace ++
          (classDefReplay env dexIdx df cd mos ks).1 ∧
        keysMatch (classDefReplay env dexIdx df cd mos ks).2 st'.maps) ∧
      ∃ δ n, c' = c + δ.length ∧
        SimN c (writeCodeClassDef env mapsF dexIdx df cd mos c) δ n ∧
        (∀ content : List Nat, content.length = c →
          codePlacement env st.maps.codeOffsets content →
          codePlacement env st'.maps.codeOffsets (content ++ δ)) := by
  cases cd with
  | none =>
    simp only [initOatCodeClassDef, Prod.mk.injEq] at h
    obtain ⟨rfl, rfl, rfl⟩ := h
    refine ⟨Nat.le_refl _, mapsLe_refl _, hb, hz, rfl, List.Forall₂.nil,
      fun ks hk => ⟨by simp [classDefReplay, methodsTableBytes],
        by simpa [classDefReplay] using hk⟩,
      [], 0, by simp, ?_, ?_⟩
    · exact simN_pure (fun f => rfl)
    · intro content hclen hpl i2 v2 hlk2 hcode2
      obtain ⟨hd, hseg⟩ := hpl i2 v2 hlk2 hcode2
      exact ⟨hd, segAt_append hseg _⟩
  | some d =>
    rcases h1 : initOatCodeMethodList env dexIdx df true d.directMethods c st
      with ⟨mos1, c1, st1⟩
    rcases h2 : initOatCodeMethodList env dexIdx df false d.virtualMethods c1
      st1 with ⟨mos2, c2, st2⟩
    have he : initOatCodeClassDef env dexIdx df (some d) c st =
        (mos1 ++ mos2, c2, st2) := by
      simp only [initOatCodeClassDef, h1, h2]
    rw [h] at he
    simp only [Prod.mk.injEq] at he
    obtain ⟨rfl, rfl, rfl⟩ := he
    obtain ⟨hgle1, hgml1, hgbd1, hgz1⟩ :=
      initMethodList_growth env hwf dexIdx df true d.directMethods c st h1
        hc hb hz
    obtain ⟨hle2, hml2, hbd2, hz2, hlen2, hfacts2, hrep2, δ2, n2, hclen2,
        hsim2, hpl2⟩ :=
      initMethodList_spec env hwf dexIdx df false d.virtualMethods c1 st1 h2
        (by omega) hgbd1 hgz1 hmono
    obtain ⟨hle1, hml1, hbd1, hz1, hlen1, hfacts1, hrep1, δ1, n1, hclen1,
        hsim1, hpl1⟩ :=
      initMethodList_spec env hwf dexIdx df true d.directMethods c st h1
        hc hb hz (mapsLe_trans hml2 hmono)
    refine ⟨by omega, mapsLe_trans hml1 hml2, hbd2, hz2,
      by simp [numMethodsOf, hlen1, hlen2], ?_, ?_, ?_⟩
    · exact forall2_append (forall2_map_left _ hfacts1)
        (forall2_map_left _ hfacts2)
    · intro ks hk
      obtain ⟨htr1, hkk1⟩ := hrep1 ks hk
      obtain ⟨htr2, hkk2⟩ := hrep2 _ hkk1
      constructor
      · rw [htr2, htr1]
        simp [classDefReplay, List.append_assoc]
      · simpa [classDefReplay] using hkk2
    · refine ⟨δ1 ++ δ2, n1 + n2, by simp; omega, ?_, ?_⟩
      · refine simN_ext (simN_bind2 hsim1
          (fun cc ff => writeCodeMethodList env mapsF dexIdx df false
            d.virtualMethods mos2 cc ff) hsim2 (by omega)) ?_
        intro f
        have hta : (mos1 ++ mos2).take d.directMethods.length = mos1 := by
          rw [← hlen1]
          exact List.take_left _ _
        have hdr : (mos1 ++ mos2).drop d.directMethods.length = mos2 := by
          rw [← hlen1]
          exact List.drop_left _ _
        simp only [writeCodeClassDef, hta, hdr]
      · intro content hclen hpl
        have ha := hpl1 content hclen hpl
        have hb2 := hpl2 (content ++ δ1) (by simp [hclen]; omega) ha
        simpa [List.append_assoc] using hb2

/-- Growth-only form of the class-definition induction. -/
theorem initClassDef_growth (env : Env) (hwf : EnvWF env) (dexIdx : Nat)
    (df : DexFileData) (cd : Option ClassData) (c : Nat) (st : LayoutSt)
    {mos : List OatMethodOffsets} {c' : Nat} {st' : LayoutSt}
    (h : initOatCodeClassDef env dexIdx df cd c st = (mos, c', st'))
    (hc : 0 < c) (hb : mapsBounded st.maps c) (hz : mapsZero env st.maps) :
    c ≤ c' ∧ mapsLe st.maps st'.maps ∧ mapsBounded st'.maps c' ∧
      mapsZero env st'.maps := by
  cases cd with
  | none =>
    simp only [initOatCodeClassDef, Prod.mk.injEq] at h
    obtain ⟨rfl, rfl, rfl⟩ := h
    exact ⟨Nat.le_refl _, mapsLe_refl _, hb, hz⟩
  | some d =>
    rcases h1 : initOatCodeMethodList env dexIdx df true d.directMethods c st
      with ⟨mos1, c1, st1⟩
    rcases h2 : initOatCodeMethodList env dexIdx df false d.virtualMethods c1
      st1 with ⟨mos2, c2, st2⟩
    have he : initOatCodeClassDef env dexIdx df (some d) c st =
        (mos1 ++ mos2, c2, st2) := by
      simp only [initOatCodeClassDef, h1, h2]
    rw [h] at he
    simp only [Prod.mk.injEq] at he
    obtain ⟨rfl, rfl, rfl⟩ := he
    obtain ⟨hle1, hml1, hbd1, hz1⟩ :=
      initMethodList_growth env hwf dexIdx df true d.directMethods c st h1
        hc hb hz
    obtain ⟨hle2, hml2, hbd2, hz2⟩ :=
      initMethodList_growth env hwf dexIdx df false d.virtualMethods c1 st1 h2
        (by omega) hbd1 hz1
    exact ⟨by omega, mapsLe_trans hml1 hml2, hbd2, hz2⟩

/-- Growth-only form of the per-input code induction. -/
theorem initCodeDexFile_growth (env : Env) (hwf : EnvWF env) (dexIdx : Nat)
    (df : DexFileData) :
    ∀ (cds : List (Option ClassData)) (c : Nat) (st : LayoutSt)
      {moss : List (List OatMethodOffsets)} {c' : Nat} {st' : LayoutSt},
    initOatCodeDexFile env dexIdx df cds c st = (moss, c', st') →
    0 < c → mapsBounded st.maps c → mapsZero env st.maps →
    c ≤ c' ∧ mapsLe st.maps st'.maps ∧ mapsBounded st'.maps c' ∧
      mapsZero env st'.maps := by
  intro cds
  induction cds with
  | nil =>
    intro c st moss c' st' h hc hb hz
    simp only [initOatCodeDexFile, Prod.mk.injEq] at h
    obtain ⟨rfl, rfl, rfl⟩ := h
    exact ⟨Nat.le_refl _, mapsLe_refl _, hb, hz⟩
  | cons cd cds ih =>
    intro c st moss c' st' h hc hb hz
    rcases h1 : initOatCodeClassDef env dexIdx df cd c st with ⟨mos1, c1, stA⟩
    rcases h2 : initOatCodeDexFile env dexIdx df cds c1
        ⟨stA.maps, stA.trace ++ methodsTableBytes mos1⟩ with ⟨moss2, c2, st2⟩
    have he : initOatCodeDexFile env dexIdx df (cd :: cds) c st =
        (mos1 :: moss2, c2, st2) := by
      simp only [initOatCodeDexFile, h1, h2]
    rw [h] at he
    simp only [Prod.mk.injEq] at he
    obtain ⟨rfl, rfl, rfl⟩ := he
    obtain ⟨hle1, hml1, hbd1, hz1⟩ :=
      initClassDef_growth env hwf dexIdx df cd c st h1 hc hb hz
    obtain ⟨hle2, hml2, hbd2, hz2⟩ := ih c1 _ h2 (by omega) hbd1 hz1
    exact ⟨by omega, mapsLe_trans hml1 hml2, hbd2, hz2⟩

/-- The combined layout/emit induction over one input's class
definitions. -/
theorem initCodeDexFile_spec (env : Env) (hwf : EnvWF env) (dexIdx : Nat)
    (df : DexFileData) :
    ∀ (cds : List (Option ClassData)) (c : Nat) (st : LayoutSt)
      {moss : List (List OatMethodOffsets)} {c' : Nat} {st' : LayoutSt},
    initOatCodeDexFile env dexIdx df cds c st = (moss, c', st') →
    0 < c → mapsBounded st.maps c → mapsZero env st.maps →
    ∀ {mapsF : DedupMaps}, mapsLe st'.maps mapsF →
    c ≤ c' ∧ mapsLe st.maps st'.maps ∧ mapsBounded st'.maps c' ∧
      mapsZero env st'.maps ∧
      List.Forall₂ (fun cd mosl => mosl.length = numMethodsOf cd ∧
        List.Forall₂ (ClassMethodFact env mapsF dexIdx df) (classItems cd) mosl)
        cds moss ∧
      (∀ ks, keysMatch ks st.maps →
        st'.trace = st.trace ++
          (classDefListReplay env dexIdx df cds moss ks).1 ∧
        keysMatch (classDefListReplay env dexIdx df cds moss ks).2 st'.maps) ∧
      ∃ δ n, c' = c + δ.length ∧
        SimN c (writeCodeDexFile env mapsF dexIdx df cds moss c) δ n ∧
        (∀ content : List Nat, content.length = c →
          codePlacement env st.maps.codeOffsets content →
          codePlacement env st'.maps.codeOffsets (content ++ δ)) := by
  intro cds
  induction cds with
  | nil =>
    intro c st moss c' st' h hc hb hz mapsF hmono
    simp only [initOatCodeDexFile, Prod.mk.injEq] at h
    obtain ⟨rfl, rfl, rfl⟩ := h
    refine ⟨Nat.le_refl _, mapsLe_refl _, hb, hz, List.Forall₂.nil,
      fun ks hk => ⟨by simp [classDefListReplay],
        by simpa [classDefListReplay] using hk⟩,
      [], 0, by simp, ?_, ?_⟩
    · exact simN_pure (fun f => rfl)
    · intro content hclen hpl i2 v2 hlk2 hcode2
      obtain ⟨hd, hseg⟩ := hpl i2 v2 hlk2 hcode2
      exact ⟨hd, segAt_append hseg _⟩
  | cons cd cds ih =>
    intro c st moss c' st' h hc hb hz mapsF hmono
    rcases h1 : initOatCodeClassDef env dexIdx df cd c st with ⟨mos1, c1, stA⟩
    rcases h2 : initOatCodeDexFile env dexIdx df cds c1
        ⟨stA.maps, stA.trace ++ methodsTableBytes mos1⟩ with ⟨moss2, c2, st2⟩
    have he : initOatCodeDexFile env dexIdx df (cd :: cds) c st =
        (mos1 :: moss2, c2, st2) := by
      simp only [initOatCodeDexFile, h1, h2]
    rw [h] at he
    simp only [Prod.mk.injEq] at he
    obtain ⟨rfl, rfl, rfl⟩ := he
    obtain ⟨hgle1, hgml1, hgbd1, hgz1⟩ :=
      initClassDef_growth env hwf dexIdx df cd c st h1 hc hb hz
    obtain ⟨hle2, hml2, hbd2, hz2, hfacts2, hrep2, δ2, n2, hclen2, hsim2,
        hpl2⟩ := ih c1 _ h2 (by omega) hgbd1 hgz1 hmono
    obtain ⟨hle1, hml1, hbd1, hz1, hlen1, hfacts1, hrep1, δ1, n1, hclen1,
        hsim1, hpl1⟩ :=
      initClassDef_spec env hwf dexIdx df cd c st h1 hc hb hz
        (mapsLe_trans hml2 hmono)
    refine ⟨by omega, mapsLe_trans hml1 hml2, hbd2, hz2,
      List.Forall₂.cons ⟨hlen1, hfacts1⟩ hfacts2, ?_, ?_⟩
    · intro ks hk
      obtain ⟨htr1, hkk1⟩ := hrep1 ks hk
      obtain ⟨htr2, hkk2⟩ := hrep2 _ hkk1
      constructor
      · rw [htr2]
        show stA.trace ++ methodsTableBytes mos1 ++ _ = _
        rw [htr1]
        simp [classDefListReplay, List.append_assoc]
      · simpa [classDefListReplay] using hkk2
    · refine ⟨δ1 ++ δ2, n1 + n2, by simp; omega, ?_, ?_⟩
      · refine simN_ext (simN_bind2 hsim1
          (fun cc ff => writeCodeDexFile env mapsF dexIdx df cds moss2 cc ff)
          hsim2 (by omega)) ?_
        intro f
        simp only [writeCodeDexFile]
      · intro content hclen hpl
        have ha := hpl1 content hclen hpl
        have hb2 := hpl2 (content ++ δ1) (by simp [hclen]; omega) ha
        simpa [List.append_assoc] using hb2

/-- The combined layout/emit induction over all inputs. -/
theorem initCodeDexFiles_spec (env : Env) (hwf : EnvWF env) :
    ∀ (dfs : List DexFileData) (dexIdx : Nat) (c : Nat) (st : LayoutSt)
      {mosss : List (List (List OatMethodOffsets))} {c' : Nat} {st' : LayoutSt},
    initOatCodeDexFiles env dexIdx dfs c st = (mosss, c', st') →
    0 < c → mapsBounded st.maps c → mapsZero env st.maps →
    ∀ {mapsF : DedupMaps}, mapsLe st'.maps mapsF →
    c ≤ c' ∧ mapsLe st.maps st'.maps ∧ mapsBounded st'.maps c' ∧
      mapsZero env st'.maps ∧
      DexFacts env mapsF dexIdx dfs mosss ∧
      (∀ ks, keysMatch ks st.maps →
        st'.trace = st.trace ++ (dexReplay env dexIdx dfs mosss ks).1 ∧
        keysMatch (dexReplay env dexIdx dfs mosss ks).2 st'.maps) ∧
      ∃ δ n, c' = c + δ.length ∧
        SimN c (writeCodeDexFiles env mapsF dexIdx dfs mosss c) δ n ∧
        (∀ content : List Nat, content.length = c →
          codePlacement env st.maps.codeOffsets content →
          codePlacement env st'.maps.codeOffsets (content ++ δ)) := by
  intro dfs
  induction dfs with
  | nil =>
    intro dexIdx c st mosss c' st' h hc hb hz mapsF hmono
    simp only [initOatCodeDexFiles, Prod.mk.injEq] at h
    obtain ⟨rfl, rfl, rfl⟩ := h
    refine ⟨Nat.le_refl _, mapsLe_refl _, hb, hz, trivial,
      fun ks hk => ⟨by simp [dexReplay], by simpa [dexReplay] using hk⟩,
      [], 0, by simp, ?_, ?_⟩
    · exact simN_pure (fun f => rfl)
    · intro content hclen hpl i2 v2 hlk2 hcode2
      obtain ⟨hd, hseg⟩ := hpl i2 v2 hlk2 hcode2
      exact ⟨hd, segAt_append hseg _⟩
  | cons df dfs ih =>
    intro dexIdx c st mosss c' st' h hc hb hz mapsF hmono
    rcases h1 : initOatCodeDexFile env dexIdx df df.classDefs c st with
      ⟨moss1, c1, stA⟩
    rcases h2 : initOatCodeDexFiles env (dexIdx + 1) dfs c1 stA with
      ⟨mosss2, c2, st2⟩
    have he : initOatCodeDexFiles env dexIdx (df :: dfs) c st =
        (moss1 :: mosss2, c2, st2) := by
      simp only [initOatCodeDexFiles, h1, h2]
    rw [h] at he
    simp only [Prod.mk.injEq] at he
    obtain ⟨rfl, rfl, rfl⟩ := he
    obtain ⟨hgle1, hgml1, hgbd1, hgz1⟩ :=
      initCodeDexFile_growth env hwf dexIdx df df.classDefs c st h1 hc hb hz
    obtain ⟨hle2, hml2, hbd2, hz2, hfacts2, hrep2, δ2, n2, hclen2, hsim2,
        hpl2⟩ := ih (dexIdx + 1) c1 stA h2 (by omega) hgbd1 hgz1 hmono
    obtain ⟨hle1, hml1, hbd1, hz1, hfacts1, hrep1, δ1, n1, hclen1, hsim1,
        hpl1⟩ :=
      initCodeDexFile_spec env hwf dexIdx df df.classDefs c st h1 hc hb hz
        (mapsLe_trans hml2 hmono)
    refine ⟨by omega, mapsLe_trans hml1 hml2, hbd2, hz2, ⟨hfacts1, hfacts2⟩,
      ?_, ?_⟩
    · intro ks hk
      obtain ⟨htr1, hkk1⟩ := hrep1 ks hk
      obtain ⟨htr2, hkk2⟩ := hrep2 _ hkk1
      constructor
      · rw [htr2, htr1]
        simp [dexReplay, List.append_assoc]
      · simpa [dexReplay] using hkk2
    · refine ⟨δ1 ++ δ2, n1 + n2, by simp; omega, ?_, ?_⟩
      · refine simN_ext (simN_bind2 hsim1
          (fun cc ff => writeCodeDexFiles env mapsF (dexIdx + 1) dfs mosss2
            cc ff) hsim2 (by omega)) ?_
        intro f
        simp only [writeCodeDexFiles]
      · intro content hclen hpl
        have ha := hpl1 content hclen hpl
        have hb2 := hpl2 (content ++ δ1) (by simp [hclen]; omega) ha
        simpa [List.append_assoc] using hb2

theorem simB_seqNB {cpre : Nat} {F1 : WFile → Option Nat × WFile}
    {δ1 : List Nat} {n1 : Nat} (h1 : SimN cpre F1 δ1 n1) (nm : String)
    (K : Nat → WFile → Bool × WFile) {δ2 : List Nat} {n2 : Nat}
    (h2 : SimB (cpre + δ1.length) (K (cpre + δ1.length)) δ2 n2) :
    SimB cpre (fun f => seqNB (F1 f) nm K) (δ1 ++ δ2) (n1 + n2) := by
  intro f hf
  have hf2 : (f.ext δ1 n1).content.length = cpre + δ1.length := by
    simp [WFile.ext, hf]
  constructor
  · rintro hok
    have e1 : F1 f = (some (cpre + δ1.length), f.ext δ1 n1) := by
      refine (h1 f hf).1 ?_
      rcases hok with hnone | ⟨k, hk, hcase⟩
      · exact Or.inl hnone
      · exact Or.inr ⟨k, hk, by omega⟩
    have e2 : K (cpre + δ1.length) (f.ext δ1 n1) =
        (true, (f.ext δ1 n1).ext δ2 n2) := by
      refine (h2 (f.ext δ1 n1) hf2).1 ?_
      rcases hok with hnone | ⟨k, hk, hcase⟩
      · exact Or.inl hnone
      · exact Or.inr ⟨k, hk, by simp [WFile.ext]; omega⟩
    simp only [seqNB, e1, e2, WFile.ext_ext]
  · intro k hk hk1 hk2
    by_cases hw : k < f.ops + n1
    · obtain ⟨δ2', lg, hp, hlg, he⟩ := (h1 f hf).2 k hk hk1 hw
      refine ⟨δ2', lg ++ [nm ++ f.fname], hp.trans (List.prefix_append _ _),
        by simp, ?_⟩
      simp [seqNB, he, WFile.addLog, List.append_assoc]
    · have e1 : F1 f = (some (cpre + δ1.length), f.ext δ1 n1) :=
        (h1 f hf).1 (Or.inr ⟨k, hk, by omega⟩)
      obtain ⟨δ2', lg, hp, hlg, he⟩ := (h2 (f.ext δ1 n1) hf2).2 k
        (by simp [WFile.ext, hk]) (by simp [WFile.ext]; omega)
        (by simp [WFile.ext]; omega)
      refine ⟨δ1 ++ δ2', lg, prefix_append_both hp, hlg, ?_⟩
      simp only [WFile.ext] at he
      simp [seqNB, e1, he, WFile.ext, List.append_assoc]

/-! ## Table-phase characterization -/

theorem initOatDexFiles_eq : ∀ (dfs : List DexFileData) (off : Nat),
    initOatDexFiles dfs off =
      (dfs.map (fun df => ⟨df.location.length, df.location, df.checksum, 0⟩),
        off + descTotal dfs) := by
  intro dfs
  induction dfs with
  | nil => intro off; simp [initOatDexFiles, descTotal]
  | cons df dfs ih =>
    intro off
    simp only [initOatDexFiles, ih, odfSize, List.map_cons, descTotal,
      List.sum_cons, Prod.mk.injEq, true_and]
    omega

theorem initOatClasses_eq : ∀ (dfs : List DexFileData) (off : Nat)
    (t : List Nat),
    initOatClasses dfs
      (dfs.map (fun df => ⟨df.location.length, df.location, df.checksum, 0⟩))
      off t =
      (odfsWithOffsets dfs off, off + classTblTotal dfs,
        t ++ ((odfsWithOffsets dfs off).map descriptorBytes).flatten) := by
  intro dfs
  induction dfs with
  | nil => intro off t; simp [initOatClasses, odfsWithOffsets, classTblTotal]
  | cons df dfs ih =>
    intro off t
    simp only [List.map_cons, initOatClasses, ih, odfsWithOffsets,
      classTblTotal, List.sum_cons, Prod.mk.injEq, true_and,
      List.flatten_cons]
    constructor
    · omega
    · simp [List.append_assoc]

theorem classTableStep_snd : ∀ (cds : List (Option ClassData)) (off : Nat),
    (classTableStep cds off).2 =
      off + (cds.map (fun cd => 28 * numMethodsOf cd)).sum := by
  intro cds
  induction cds with
  | nil => intro off; simp [classTableStep]
  | cons cd cds ih =>
    intro off
    simp only [classTableStep, ih, List.map_cons, List.sum_cons]
    omega

theorem classTableStep_len : ∀ (cds : List (Option ClassData)) (off : Nat),
    (classTableStep cds off).1.length = cds.length := by
  intro cds
  induction cds with
  | nil => intro off; simp [classTableStep]
  | cons cd cds ih =>
    intro off
    simp [classTableStep, ih]

theorem initOatMethods_spec : ∀ (dfs : List DexFileData) (off : Nat)
    (t : List Nat),
    (initOatMethods dfs off t).2.1 = off + methodsTblTotal dfs ∧
    (initOatMethods dfs off t).2.2 =
      t ++ ((initOatMethods dfs off t).1.map classTableBytes).flatten ∧
    List.Forall₂ (fun (tbl : List Nat) (df : DexFileData) =>
      tbl.length = df.classDefs.length) (initOatMethods dfs off t).1 dfs := by
  intro dfs
  induction dfs with
  | nil =>
    intro off t
    refine ⟨?_, ?_, List.Forall₂.nil⟩
    · simp [initOatMethods, methodsTblTotal]
    · simp [initOatMethods]
  | cons df dfs ih =>
    intro off t
    obtain ⟨hc, ht, hf⟩ := ih (classTableStep df.classDefs off).2
      (t ++ classTableBytes (classTableStep df.classDefs off).1)
    refine ⟨?_, ?_, ?_⟩
    · rw [classTableStep_snd] at hc
      simp only [initOatMethods, classTableStep_snd, hc, methodsTblTotal,
        List.map_cons, List.sum_cons]
      omega
    · simp only [initOatMethods, ht, List.map_cons, List.flatten_cons,
        List.append_assoc]
    · exact List.Forall₂.cons (classTableStep_len _ _) hf

/-- The bundled facts about the final layout structure: the descriptor list,
the table-end cursor, the page rounding, and the equation handing the code
phase its starting cursor, state and outputs. -/
theorem layoutAll_facts (env : Env) (dfs : List DexFileData) :
    (layoutAll env dfs).oatDexFiles =
        odfsWithOffsets dfs (env.headerSize + descTotal dfs) ∧
    (layoutAll env dfs).tablesEnd =
        env.headerSize + descTotal dfs + classTblTotal dfs +
          methodsTblTotal dfs ∧
    (layoutAll env dfs).executableOffset =
        roundUp (layoutAll env dfs).tablesEnd env.pageSize ∧
    (layoutAll env dfs).padLen =
        (layoutAll env dfs).executableOffset - (layoutAll env dfs).tablesEnd ∧
    List.Forall₂ (fun (tbl : List Nat) (df : DexFileData) =>
        tbl.length = df.classDefs.length) (layoutAll env dfs).classTables dfs ∧
    initOatCodeDexFiles env 0 dfs (layoutAll env dfs).executableOffset
        ⟨⟨[], [], []⟩,
          ((layoutAll env dfs).oatDexFiles.map descriptorBytes).flatten ++
            ((layoutAll env dfs).classTables.map classTableBytes).flatten⟩ =
      ((layoutAll env dfs).oatMethods, (layoutAll env dfs).finalOffset,
        ⟨(layoutAll env dfs).maps, (layoutAll env dfs).trace⟩) := by
  obtain ⟨hc, ht, hf⟩ := initOatMethods_spec dfs
    (env.headerSize + descTotal dfs + classTblTotal dfs)
    ([] ++ ((odfsWithOffsets dfs (env.headerSize + descTotal dfs)).map
      descriptorBytes).flatten)
  simp only [layoutAll, initOatHeader, initOatDexFiles_eq, initOatClasses_eq,
    initOatCode]
  refine ⟨trivial, by rw [hc], trivial, trivial, hf, ?_⟩
  rw [ht]
  simp

theorem odfsWithOffsets_descLen : ∀ (dfs : List DexFileData) (off : Nat),
    (((odfsWithOffsets dfs off).map descriptorBytes).flatten).length =
      descTotal dfs := by
  intro dfs
  induction dfs with
  | nil => intro off; simp [odfsWithOffsets, descTotal]
  | cons df dfs ih =>
    intro off
    simp only [odfsWithOffsets, List.map_cons, List.flatten_cons,
      List.length_append, ih, descTotal, List.sum_cons, descriptorBytes,
      le32_length]
    omega

theorem classTables_flatLen :
    ∀ {tbls : List (List Nat)} {dfs : List DexFileData},
    List.Forall₂ (fun (tbl : List Nat) (df : DexFileData) =>
      tbl.length = df.classDefs.length) tbls dfs →
    ((tbls.map classTableBytes).flatten).length = classTblTotal dfs := by
  intro tbls dfs h
  induction h with
  | nil => simp [classTblTotal]
  | @cons tbl df tbls dfs h1 h2 ih =>
    simp only [List.map_cons, List.flatten_cons, List.length_append, ih,
      classTableBytes_length, h1, classTblTotal, List.map_cons, List.sum_cons]

theorem moss_flatLen :
    ∀ {cds : List (Option ClassData)} {moss : List (List OatMethodOffsets)},
    List.Forall₂ (fun (cd : Option ClassData)
      (mosl : List OatMethodOffsets) => mosl.length = numMethodsOf cd)
      cds moss →
    ((moss.map methodsTableBytes).flatten).length =
      (cds.map (fun cd => 28 * numMethodsOf cd)).sum := by
  intro cds moss h
  induction h with
  | nil => simp
  | @cons cd mosl cds moss h1 h2 ih =>
    simp only [List.map_cons, List.flatten_cons, List.length_append, ih,
      methodsTableBytes_length, h1, List.sum_cons]

theorem dexFacts_flatLen {env : Env} {mapsF : DedupMaps} :
    ∀ {dexIdx : Nat} {dfs : List DexFileData}
      {mosss : List (List (List OatMethodOffsets))},
    DexFacts env mapsF dexIdx dfs mosss →
    ((mosss.flatten.map methodsTableBytes).flatten).length =
      methodsTblTotal dfs := by
  intro dexIdx dfs
  induction dfs generalizing dexIdx with
  | nil =>
    intro mosss h
    cases mosss with
    | nil => simp [methodsTblTotal]
    | cons a b => exact absurd h (by simp [DexFacts])
  | cons df dfs ih =>
    intro mosss h
    cases mosss with
    | nil => exact absurd h (by simp [DexFacts])
    | cons moss mosss =>
      obtain ⟨h1, h2⟩ := h
      have hlen := moss_flatLen (h1.imp (fun a b hab => hab.1))
      have hrest := ih h2
      simp only [List.flatten_cons, List.map_append, List.flatten_append,
        List.length_append, hlen, hrest, methodsTblTotal, List.map_cons,
        List.sum_cons]

theorem simB_ext {cpre : Nat} {F' F : WFile → Bool × WFile} {δ : List Nat}
    {n : Nat} (h : SimB cpre F δ n) (he : ∀ f, F' f = F f) :
    SimB cpre F' δ n := by
  intro f hf
  obtain ⟨h1, h2⟩ := h f hf
  refine ⟨fun hok => by rw [he]; exact h1 hok, fun k hk hk1 hk2 => ?_⟩
  obtain ⟨δ2, lg, hp, hlg, hres⟩ := h2 k hk hk1 hk2
  exact ⟨δ2, lg, hp, hlg, by rw [he]; exact hres⟩

theorem mapsBounded_empty (c : Nat) : mapsBounded ⟨[], [], []⟩ c := by
  refine ⟨?_, ?_, ?_⟩ <;> intro k v h <;> simp [lookupOff] at h

theorem mapsZero_empty (env : Env) : mapsZero env ⟨[], [], []⟩ := by
  refine ⟨?_, ?_, ?_⟩ <;> intro k v h <;> simp [lookupOff] at h

theorem keysMatch_empty : keysMatch ⟨[], [], []⟩ ⟨[], [], []⟩ := by
  refine ⟨?_, ?_, ?_⟩ <;> intro k <;> simp [lookupOff]

theorem codePlacement_empty (env : Env) (content : List Nat) :
    codePlacement env [] content := by
  intro i v h
  simp [lookupOff] at h

/-- The whole emit pass, simulated against the layout of the same inputs:
one content stream `δ` of length `finalOffset`, every compiled-code buffer
placed at its recorded offset, with success exactly when no operation of the
window fails. -/
theorem writeOat_sim (env : Env) (hwf : EnvWF env) (dfs : List DexFileData) :
    ∃ δ N, SimB 0 (writeOat env dfs (layoutAll env dfs)) δ N ∧ 0 < N ∧
      δ.length = (layoutAll env dfs).finalOffset ∧
      codePlacement env (layoutAll env dfs).maps.codeOffsets δ ∧
      DexFacts env (layoutAll env dfs).maps 0 dfs
        (layoutAll env dfs).oatMethods := by
  obtain ⟨hodf, hte, hex, hpad, htbl, hcode⟩ := layoutAll_facts env dfs
  have hteh : env.headerSize ≤ (layoutAll env dfs).tablesEnd := by
    rw [hte]; omega
  have hexe : (layoutAll env dfs).tablesEnd ≤
      (layoutAll env dfs).executableOffset := by
    rw [hex]; exact le_roundUp _ hwf.pageSizePos
  have hcpos : 0 < (layoutAll env dfs).executableOffset := by
    have := hwf.headerSizePos; omega
  obtain ⟨hle, hml, hbd, hz, hfacts, hrep, δc, nc, hclen, hsim, hpl⟩ :=
    initCodeDexFiles_spec env hwf dfs 0 (layoutAll env dfs).executableOffset
      _ hcode hcpos (mapsBounded_empty _) (mapsZero_empty env) (mapsLe_refl _)
  have hH := simB_writeField 0 (headerBytes env (layoutAll env dfs))
    "Failed to write oat header to "
  have hHlen : (headerBytes env (layoutAll env dfs)).length = env.headerSize :=
    hwf.headerLen _ _
  have hT := simB_writeTables (0 + (headerBytes env (layoutAll env dfs)).length)
    (layoutAll env dfs)
  have hdlen :
      (((layoutAll env dfs).oatDexFiles.map descriptorBytes).flatten).length =
        descTotal dfs := by
    rw [hodf]; exact odfsWithOffsets_descLen dfs _
  have hctlen :
      (((layoutAll env dfs).classTables.map classTableBytes).flatten).length =
        classTblTotal dfs := classTables_flatLen htbl
  have hmtlen :
      (((layoutAll env dfs).oatMethods.flatten.map
        methodsTableBytes).flatten).length = methodsTblTotal dfs :=
    dexFacts_flatLen hfacts
  have hcut : 0 + (headerBytes env (layoutAll env dfs)).length +
      (((layoutAll env dfs).oatDexFiles.map descriptorBytes).flatten ++
        (((layoutAll env dfs).classTables.map classTableBytes).flatten ++
          ((layoutAll env dfs).oatMethods.flatten.map
            methodsTableBytes).flatten)).length =
      (layoutAll env dfs).tablesEnd := by
    simp only [List.length_append, hdlen, hctlen, hmtlen, hHlen, hte]
    omega
  have hSeek := simN_writeCode (layoutAll env dfs).tablesEnd
    (layoutAll env dfs) (by omega)
  have hLast : SimB ((layoutAll env dfs).executableOffset + δc.length)
      ((fun (_ : Nat) (f4 : WFile) => (true, f4))
        ((layoutAll env dfs).executableOffset + δc.length)) [] 0 :=
    simB_pure (fun f => rfl)
  have h4 : SimB (layoutAll env dfs).executableOffset
      (fun f => seqNB
        (writeCodeDexFiles env (layoutAll env dfs).maps 0 dfs
          (layoutAll env dfs).oatMethods
          (layoutAll env dfs).executableOffset f)
        "Failed to write oat code for dex files to "
        (fun _ f4 => (true, f4))) (δc ++ []) (nc + 0) :=
    simB_seqNB hsim "Failed to write oat code for dex files to " _ hLast
  have h3 : SimB (layoutAll env dfs).tablesEnd
      (fun f => seqNB (writeCode (layoutAll env dfs) f)
        "Failed to write oat code to "
        (fun c3 f3 => seqNB
          (writeCodeDexFiles env (layoutAll env dfs).maps 0 dfs
            (layoutAll env dfs).oatMethods c3 f3)
          "Failed to write oat code for dex files to "
          (fun _ f4 => (true, f4))))
      (List.replicate (layoutAll env dfs).padLen 0 ++ (δc ++ []))
      (1 + (nc + 0)) := by
    refine simB_seqNB hSeek "Failed to write oat code to " _ ?_
    rw [show (layoutAll env dfs).tablesEnd +
        (List.replicate (layoutAll env dfs).padLen 0).length =
        (layoutAll env dfs).executableOffset by
      simp only [List.length_replicate]; omega]
    exact h4
  have h2 : SimB (0 + (headerBytes env (layoutAll env dfs)).length)
      (fun f => seqBLog (writeTables (layoutAll env dfs) f)
        "Failed to write oat tables to "
        (fun f2 => seqNB (writeCode (layoutAll env dfs) f2)
          "Failed to write oat code to "
          (fun c3 f3 => seqNB
            (writeCodeDexFiles env (layoutAll env dfs).maps 0 dfs
              (layoutAll env dfs).oatMethods c3 f3)
            "Failed to write oat code for dex files to "
            (fun _ f4 => (true, f4)))))
      ((((layoutAll env dfs).oatDexFiles.map descriptorBytes).flatten ++
        (((layoutAll env dfs).classTables.map classTableBytes).flatten ++
          ((layoutAll env dfs).oatMethods.flatten.map
            methodsTableBytes).flatten)) ++
        (List.replicate (layoutAll env dfs).padLen 0 ++ (δc ++ [])))
      ((4 * (layoutAll env dfs).oatDexFiles.length +
        ((layoutAll env dfs).classTables.length +
          (layoutAll env dfs).oatMethods.flatten.length)) +
        (1 + (nc + 0))) := by
    refine simB_seqBLog hT "Failed to write oat tables to " ?_
    rw [hcut]
    exact h3
  have h1 : SimB 0 (writeOat env dfs (layoutAll env dfs))
      ((headerBytes env (layoutAll env dfs)) ++
        ((((layoutAll env dfs).oatDexFiles.map descriptorBytes).flatten ++
          (((layoutAll env dfs).classTables.map classTableBytes).flatten ++
            ((layoutAll env dfs).oatMethods.flatten.map
              methodsTableBytes).flatten)) ++
          (List.replicate (layoutAll env dfs).padLen 0 ++ (δc ++ []))))
      (1 + ((4 * (layoutAll env dfs).oatDexFiles.length +
        ((layoutAll env dfs).classTables.length +
          (layoutAll env dfs).oatMethods.flatten.length)) +
        (1 + (nc + 0)))) := by
    refine simB_ext (simB_seqB hH h2) ?_
    intro f
    simp only [writeOat]
  refine ⟨_, _, h1, by omega, ?_, ?_, hfacts⟩
  · simp only [List.length_append, hdlen, hctlen, hmtlen, hHlen,
      List.length_replicate, List.length_nil]
    omega
  · have hlen0 : ((headerBytes env (layoutAll env dfs)) ++
        ((((layoutAll env dfs).oatDexFiles.map descriptorBytes).flatten ++
          (((layoutAll env dfs).classTables.map classTableBytes).flatten ++
            ((layoutAll env dfs).oatMethods.flatten.map
              methodsTableBytes).flatten)) ++
          List.replicate (layoutAll env dfs).padLen 0)).length =
        (layoutAll env dfs).executableOffset := by
      simp only [List.length_append, hdlen, hctlen, hmtlen, hHlen,
        List.length_replicate]
      omega
    have := hpl _ hlen0 (codePlacement_empty env _)
    simpa [List.append_assoc] using this

/-- One full run of the writer at every failure injection: the success
content, and the abort behaviour when the injected operation index falls
inside the run's window. -/
theorem oatWriterRun_facts (env : Env) (hwf : EnvWF env)
    (dfs : List DexFileData) :
    ∃ δ N, 0 < N ∧
      δ.length = (layoutAll env dfs).finalOffset ∧
      codePlacement env (layoutAll env dfs).maps.codeOffsets δ ∧
      DexFacts env (layoutAll env dfs).maps 0 dfs
        (layoutAll env dfs).oatMethods ∧
      (∀ nm, oatWriterRun env dfs nm none = (true, ⟨nm, δ, N, none, []⟩)) ∧
      (∀ nm k, N ≤ k →
        oatWriterRun env dfs nm (some k) = (true, ⟨nm, δ, N, some k, []⟩)) ∧
      (∀ nm k, k < N → ∃ f2,
        oatWriterRun env dfs nm (some k) = (false, f2) ∧
        f2.ops = k + 1 ∧ f2.failAt = some k ∧ f2.content <+: δ ∧
        f2.log ≠ []) := by
  obtain ⟨δ, N, hsim, hN, hlen, hpl, hfacts⟩ := writeOat_sim env hwf dfs
  refine ⟨δ, N, hN, hlen, hpl, hfacts, ?_, ?_, ?_⟩
  · intro nm
    have h := (hsim (mkFile nm none) rfl).1 (Or.inl rfl)
    simp only [oatWriterRun]
    rw [h]
    simp [mkFile, WFile.ext]
  · intro nm k hk
    have h := (hsim (mkFile nm (some k)) rfl).1
      (Or.inr ⟨k, rfl, Or.inr (by simpa [mkFile] using hk)⟩)
    simp only [oatWriterRun]
    rw [h]
    simp [mkFile, WFile.ext]
  · intro nm k hk
    obtain ⟨δ2, lg, hp, hlg, he⟩ := (hsim (mkFile nm (some k)) rfl).2 k rfl
      (by simp [mkFile]) (by simp [mkFile]; omega)
    refine ⟨_, by simp only [oatWriterRun]; rw [he], by simp [mkFile], rfl,
      ?_, ?_⟩
    · simpa [mkFile] using hp
    · simpa [mkFile] using hlg

theorem forall2_get {α β : Type} {R : α → β → Prop} :
    ∀ {l1 : List α} {l2 : List β}, List.Forall₂ R l1 l2 →
    ∀ {i : Nat} {x : α}, l1[i]? = some x →
    ∃ y, l2[i]? = some y ∧ R x y := by
  intro l1 l2 h
  induction h with
  | nil => intro i x hx; simp at hx
  | @cons a b l1 l2 hab h ih =>
    intro i x hx
    cases i with
    | zero =>
      simp only [List.getElem?_cons_zero, Option.some.injEq] at hx
      subst hx
      exact ⟨b, by simp, hab⟩
    | succ i =>
      simp only [List.getElem?_cons_succ] at hx ⊢
      exact ih hx

/-- Indexed access into the per-input facts: the record stored at traversal
position `(d, c, m)` satisfies the per-method fact. -/
theorem dexFacts_access {env : Env} {mapsF : DedupMaps} :
    ∀ {dfs : List DexFileData} {dexIdx : Nat}
      {mosss : List (List (List OatMethodOffsets))},
    DexFacts env mapsF dexIdx dfs mosss →
    ∀ {d c m : Nat} {df : DexFileData} {cd : Option ClassData}
      {p : Bool × Nat} {mo : OatMethodOffsets},
    dfs[d]? = some df → df.classDefs[c]? = some cd →
    (classItems cd)[m]? = some p →
    (mosss[d]?.bind fun dft => (dft[c]?).bind fun cdt => cdt[m]?) = some mo →
    ClassMethodFact env mapsF (dexIdx + d) df p mo := by
  intro dfs
  induction dfs with
  | nil =>
    intro dexIdx mosss h d c m df cd p mo hdf
    simp at hdf
  | cons df0 dfs ih =>
    intro dexIdx mosss h d c m df cd p mo hdf hcd hp hmo
    cases mosss with
    | nil => exact absurd h (by simp [DexFacts])
    | cons moss mosss =>
      obtain ⟨h1, h2⟩ := h
      cases d with
      | zero =>
        simp only [List.getElem?_cons_zero, Option.some.injEq] at hdf
        subst hdf
        simp only [List.getElem?_cons_zero, Option.some_bind] at hmo
        obtain ⟨mosl, hmosl, hlenf, hfor⟩ := forall2_get h1 hcd
        rw [hmosl] at hmo
        simp only [Option.some_bind] at hmo
        obtain ⟨mo2, hmo2, hcmf⟩ := forall2_get hfor hp
        rw [hmo2] at hmo
        simp only [Option.some.injEq] at hmo
        subst hmo
        simpa using hcmf
      | succ d =>
        simp only [List.getElem?_cons_succ] at hdf hmo
        have hres := ih h2 hdf hcd hp hmo
        have he : dexIdx + (d + 1) = dexIdx + 1 + d := by omega
        rw [he]
        exact hres

theorem envC_wf : EnvWF envC :=
  ⟨by decide, by decide, by decide, fun i => Nat.succ_pos 3,
    fun i => Nat.zero_le 1, fun c e => rfl⟩

theorem initOatClasses_le : ∀ (dfs : List DexFileData)
    (odfs : List OatDexFileR) (off : Nat) (t : List Nat),
    off ≤ (initOatClasses dfs odfs off t).2.1 := by
  intro dfs
  induction dfs with
  | nil => intro odfs off t; simp [initOatClasses]
  | cons df dfs ih =>
    intro odfs off t
    cases odfs with
    | nil => simp [initOatClasses]
    | cons odf odfs =>
      have h := ih odfs (off + 4 * df.classDefs.length)
        (t ++ descriptorBytes { odf with classesOffset := off })
      simp only [initOatClasses]
      omega

/-! ## The claims -/

/-- C1: dual-pass offset consistency — for every method with compiled code,
the successful emit run places the first byte of the method's code at the
file position recorded in its `MethodLayout` record, namely `code_offset`
minus the method's thumb `code_delta`; that offset is exactly the value the
layout pass stored in the shared dedup map for the method's code buffer. -/
theorem oat_dual_pass_offsets (env : Env) (hwf : EnvWF env)
    (dfs : List DexFileData) (nm : String) (d c m : Nat) (df : DexFileData)
    (cd : Option ClassData) (isStatic : Bool) (midx i : Nat)
    (mo : OatMethodOffsets)
    (hdf : dfs[d]? = some df) (hcd : df.classDefs[c]? = some cd)
    (hp : (classItems cd)[m]? = some (isStatic, midx))
    (hmo : methodLayoutAt (layoutAll env dfs) d c m = some mo)
    (hcm : env.getCompiledMethod d midx = some i)
    (hcode : (env.cm i).code ≠ []) :
    (oatWriterRun env dfs nm none).1 = true ∧
    lookupOff (layoutAll env dfs).maps.codeOffsets (CodeKey.cmKey i) =
      some mo.codeOffset ∧
    (env.cm i).codeDelta ≤ mo.codeOffset ∧
    segAt (oatWriterRun env dfs nm none).2.content
      (mo.codeOffset - (env.cm i).codeDelta) (env.cm i).code := by
  obtain ⟨δ, N, hN, hlen, hpl, hfacts, hsucc, _, _⟩ :=
    oatWriterRun_facts env hwf dfs
  have hcmf := dexFacts_access hfacts hdf hcd hp
    (by simpa [methodLayoutAt] using hmo)
  obtain ⟨hlk, _, _, _⟩ := hcmf.1 i (by rw [Nat.zero_add]; exact hcm)
  have hplc := hpl i _ hlk hcode
  refine ⟨by rw [hsucc nm], hlk, hplc.1, ?_⟩
  rw [hsucc nm]
  exact hplc.2

/-- C1 witness: the concrete build's first method has its four code bytes
placed at offset 104 of the run's output. -/
theorem oat_dual_pass_offsets_witness :
    (oatWriterRun envC dfsC "oat" none).1 = true ∧
    lookupOff (layoutAll envC dfsC).maps.codeOffsets (CodeKey.cmKey 0) =
      some moC.codeOffset ∧
    (envC.cm 0).codeDelta ≤ moC.codeOffset ∧
    segAt (oatWriterRun envC dfsC "oat" none).2.content
      (moC.codeOffset - (envC.cm 0).codeDelta) (envC.cm 0).code :=
  oat_dual_pass_offsets envC envC_wf dfsC "oat" 0 0 0 dfC
    (some ⟨[⟨0, 8⟩, ⟨1, 0⟩, ⟨2, 0⟩], []⟩) true 0 0 moC rfl rfl rfl rfl rfl
    (by decide)

/-- C2: code deduplication — two methods whose compiled code is the
identity-equal buffer store equal `code_offset` values and the file holds
one shared copy of the bytes at that offset; on a map hit the layout step
returns the previously assigned offset without advancing the cursor or
touching the checksum trace, and on a miss it advances the cursor by the
buffer size and appends the bytes to the checksum trace. -/
theorem oat_code_dedup (env : Env) (hwf : EnvWF env)
    (dfs : List DexFileData) (nm : String) (da ca ma db cb mb : Nat)
    (dfa dfb : DexFileData) (cda cdb : Option ClassData) (pa pb : Bool × Nat)
    (moa mob : OatMethodOffsets) (i : Nat)
    (hdfa : dfs[da]? = some dfa) (hcda : dfa.classDefs[ca]? = some cda)
    (hpa : (classItems cda)[ma]? = some pa)
    (hmoa : methodLayoutAt (layoutAll env dfs) da ca ma = some moa)
    (hcma : env.getCompiledMethod da pa.2 = some i)
    (hdfb : dfs[db]? = some dfb) (hcdb : dfb.classDefs[cb]? = some cdb)
    (hpb : (classItems cdb)[mb]? = some pb)
    (hmob : methodLayoutAt (layoutAll env dfs) db cb mb = some mob)
    (hcmb : env.getCompiledMethod db pb.2 = some i)
    (hcode : (env.cm i).code ≠ []) :
    moa.codeOffset = mob.codeOffset ∧
    segAt (oatWriterRun env dfs nm none).2.content
      (moa.codeOffset - (env.cm i).codeDelta) (env.cm i).code ∧
    (∀ (α : Type) [DecidableEq α] (mp : List (α × Nat)) (k : α)
      (extra : Nat) (bytes : List Nat) (off : Nat) (tr : List Nat)
      (prev : Nat), lookupOff mp k = some prev →
      artifactLayout mp k extra bytes off tr = (prev, off, mp, tr)) ∧
    (∀ (α : Type) [DecidableEq α] (mp : List (α × Nat)) (k : α)
      (extra : Nat) (bytes : List Nat) (off : Nat) (tr : List Nat),
      lookupOff mp k = none →
      artifactLayout mp k extra bytes off tr =
        ((if bytes.length = 0 then 0 else off + extra), off + bytes.length,
          (k, if bytes.length = 0 then 0 else off + extra) :: mp,
          tr ++ bytes)) := by
  obtain ⟨δ, N, hN, hlen, hpl, hfacts, hsucc, _, _⟩ :=
    oatWriterRun_facts env hwf dfs
  have hcmfa := dexFacts_access hfacts hdfa hcda hpa
    (by simpa [methodLayoutAt] using hmoa)
  have hcmfb := dexFacts_access hfacts hdfb hcdb hpb
    (by simpa [methodLayoutAt] using hmob)
  obtain ⟨hlka, _, _, _⟩ := hcmfa.1 i (by rw [Nat.zero_add]; exact hcma)
  obtain ⟨hlkb, _, _, _⟩ := hcmfb.1 i (by rw [Nat.zero_add]; exact hcmb)
  have heq : moa.codeOffset = mob.codeOffset := by
    rw [hlka] at hlkb
    exact Option.some.inj hlkb
  refine ⟨heq, ?_, ?_, ?_⟩
  · rw [hsucc nm]
    exact (hpl i _ hlka hcode).2
  · intro α inst mp k extra bytes off tr prev hh
    simp [artifactLayout, hh]
  · intro α inst mp k extra bytes off tr hh
    simp [artifactLayout, hh]

/-- C2 witness: the concrete build's methods 0 and 1 share the compiled
buffer and the stored offsets agree, with the bytes placed once at 104. -/
theorem oat_code_dedup_witness :
    (methodLayoutAt (layoutAll envC dfsC) 0 0 0 = some moC) ∧
    (methodLayoutAt (layoutAll envC dfsC) 0 0 1 = some moC) ∧
    moC.codeOffset = moC.codeOffset ∧
    segAt (oatWriterRun envC dfsC "oat" none).2.content
      (moC.codeOffset - (envC.cm 0).codeDelta) (envC.cm 0).code :=
  ⟨rfl, rfl,
    (oat_code_dedup envC envC_wf dfsC "oat" 0 0 0 0 0 1 dfC dfC
      (some ⟨[⟨0, 8⟩, ⟨1, 0⟩, ⟨2, 0⟩], []⟩)
      (some ⟨[⟨0, 8⟩, ⟨1, 0⟩, ⟨2, 0⟩], []⟩) (true, 0) (false, 1) moC moC 0
      rfl rfl rfl rfl rfl rfl rfl rfl rfl rfl (by decide)).1,
    (oat_code_dedup envC envC_wf dfsC "oat" 0 0 0 0 0 1 dfC dfC
      (some ⟨[⟨0, 8⟩, ⟨1, 0⟩, ⟨2, 0⟩], []⟩)
      (some ⟨[⟨0, 8⟩, ⟨1, 0⟩, ⟨2, 0⟩], []⟩) (true, 0) (false, 1) moC moC 0
      rfl rfl rfl rfl rfl rfl rfl rfl rfl rfl (by decide)).2.1⟩

/-- C3 (amended): for a method whose `GetCompiledMethod` is absent, the
stored record keeps `code_offset`, the spill masks and the two table
offsets at 0 and only the invoke-stub step may set `invoke_stub_offset` —
but `frame_size_bytes` is stored as the stack-alignment constant, not 0,
because lines 188-196 default the frame metadata before the record is
stored. -/
theorem oat_abstract_method_layout (env : Env) (dexIdx : Nat)
    (df : DexFileData) (isStatic : Bool) (methodIdx offset : Nat)
    (st : LayoutSt) (mo : OatMethodOffsets) (off' : Nat) (st' : LayoutSt)
    (h : initOatCodeMethod env dexIdx df isStatic methodIdx offset st =
      (mo, off', st'))
    (hnone : env.getCompiledMethod dexIdx methodIdx = none) :
    mo.codeOffset = 0 ∧ mo.coreSpillMask = 0 ∧ mo.fpSpillMask = 0 ∧
    mo.mappingTableOffset = 0 ∧ mo.vmapTableOffset = 0 ∧
    mo.frameSizeInBytes = env.stackAlignment ∧
    (env.findInvokeStub isStatic (df.shorty methodIdx) = none →
      mo.invokeStubOffset = 0) := by
  rcases hrs : stubLayout env isStatic (df.shorty methodIdx) (offset + 12)
      ⟨st.maps.codeOffsets, st.maps.mappingTableOffsets,
        st.maps.vmapTableOffsets⟩
      (st.trace ++ frameWords env.stackAlignment 0 0) with ⟨vs, o5, maps5, t5⟩
  have he : initOatCodeMethod env dexIdx df isStatic methodIdx offset st =
      (⟨0, env.stackAlignment, 0, 0, 0, 0, vs⟩, o5, ⟨maps5, t5⟩) := by
    simp only [initOatCodeMethod, hnone, hrs]
  rw [h] at he
  simp only [Prod.mk.injEq] at he
  obtain ⟨rfl, rfl, rfl⟩ := he
  refine ⟨rfl, rfl, rfl, rfl, rfl, rfl, ?_⟩
  intro hs
  simp only [stubLayout, hs, Prod.mk.injEq] at hrs
  exact hrs.1.symm

/-- C3 counterexample: in the concrete build, the abstract method's stored
record has `frame_size_bytes = 16` (the stack alignment), refuting the
claim that all layout fields stay 0 for an absent compiled method. -/
theorem oat_abstract_method_layout_cex :
    envC.getCompiledMethod 0 2 = none ∧
    (initOatCodeMethod envC 0 dfC false 2 20
      ⟨⟨[], [], []⟩, []⟩).1.frameSizeInBytes = 16 ∧
    (initOatCodeMethod envC 0 dfC false 2 20
      ⟨⟨[], [], []⟩, []⟩).1.frameSizeInBytes ≠ 0 := by
  refine ⟨rfl, rfl, ?_⟩
  decide

/-- C3 witness: the amended statement applied to the concrete abstract
method. -/
theorem oat_abstract_method_layout_witness :
    moA.codeOffset = 0 ∧ moA.coreSpillMask = 0 ∧ moA.fpSpillMask = 0 ∧
    moA.mappingTableOffset = 0 ∧ moA.vmapTableOffset = 0 ∧
    moA.frameSizeInBytes = envC.stackAlignment ∧
    (envC.findInvokeStub false (dfC.shorty 2) = none →
      moA.invokeStubOffset = 0) :=
  oat_abstract_method_layout envC 0 dfC false 2 20 ⟨⟨[], [], []⟩, []⟩ moA 32
    ⟨⟨[], [], []⟩, frameWords 16 0 0⟩ rfl rfl

/-- C4: checksum correctness — the byte trace accumulated by the layout
pass (whose checksum value the emit pass writes into the header) equals the
independent recomputation that streams descriptor bytes, class-table bytes
and, per class definition, the first-occurrence artifact bytes followed by
the methods-table bytes, in layout order; hence the header prelude written
to the file carries the checksum of that logical stream. -/
theorem oat_checksum_replay (env : Env) (hwf : EnvWF env)
    (dfs : List DexFileData) :
    (layoutAll env dfs).trace = logicalStream env dfs (layoutAll env dfs) ∧
    headerBytes env (layoutAll env dfs) =
      env.headerEncode
        (env.cksum (logicalStream env dfs (layoutAll env dfs)))
        (layoutAll env dfs).executableOffset := by
  obtain ⟨hodf, hte, hex, hpad, htbl, hcode⟩ := layoutAll_facts env dfs
  have hexe : (layoutAll env dfs).tablesEnd ≤
      (layoutAll env dfs).executableOffset := by
    rw [hex]; exact le_roundUp _ hwf.pageSizePos
  have hcpos : 0 < (layoutAll env dfs).executableOffset := by
    have h1 := hwf.headerSizePos
    rw [hte] at hexe
    omega
  obtain ⟨hle, hml, hbd, hz, hfacts, hrep, δc, nc, hclen, hsim, hpl⟩ :=
    initCodeDexFiles_spec env hwf dfs 0 (layoutAll env dfs).executableOffset
      _ hcode hcpos (mapsBounded_empty _) (mapsZero_empty env) (mapsLe_refl _)
  obtain ⟨htr, _⟩ := hrep ⟨[], [], []⟩ keysMatch_empty
  have htr2 : (layoutAll env dfs).trace =
      (((layoutAll env dfs).oatDexFiles.map descriptorBytes).flatten ++
        ((layoutAll env dfs).classTables.map classTableBytes).flatten) ++
      (dexReplay env 0 dfs (layoutAll env dfs).oatMethods ⟨[], [], []⟩).1 :=
    htr
  have h1 : (layoutAll env dfs).trace =
      logicalStream env dfs (layoutAll env dfs) := by
    rw [htr2]
    simp [logicalStream, List.append_assoc]
  exact ⟨h1, by rw [headerBytes, h1]⟩

/-- C4 witness: the concrete build's layout trace equals its logical
stream. -/
theorem oat_checksum_replay_witness :
    (layoutAll envC dfsC).trace = logicalStream envC dfsC (layoutAll envC dfsC) ∧
    headerBytes envC (layoutAll envC dfsC) =
      envC.headerEncode
        (envC.cksum (logicalStream envC dfsC (layoutAll envC dfsC)))
        (layoutAll envC dfsC).executableOffset :=
  oat_checksum_replay envC envC_wf dfsC

/-- C5: the executable-section offset chosen by the layout pass is an exact
multiple of the page size, is at least the cursor at the end of the last
table (header plus descriptors plus class tables plus methods tables), and
the recorded padding is exactly the difference. -/
theorem oat_exec_offset_page_aligned (env : Env) (hwf : EnvWF env)
    (dfs : List DexFileData) :
    (layoutAll env dfs).executableOffset % env.pageSize = 0 ∧
    (layoutAll env dfs).tablesEnd ≤ (layoutAll env dfs).executableOffset ∧
    (layoutAll env dfs).padLen =
      (layoutAll env dfs).executableOffset - (layoutAll env dfs).tablesEnd ∧
    (layoutAll env dfs).tablesEnd =
      env.headerSize + descTotal dfs + classTblTotal dfs +
        methodsTblTotal dfs := by
  obtain ⟨hodf, hte, hex, hpad, htbl, hcode⟩ := layoutAll_facts env dfs
  exact ⟨by rw [hex]; exact roundUp_mod _ _,
    by rw [hex]; exact le_roundUp _ hwf.pageSizePos, hpad, hte⟩

/-- C5 witness: the concrete build's executable offset. -/
theorem oat_exec_offset_page_aligned_witness :
    (layoutAll envC dfsC).executableOffset % envC.pageSize = 0 ∧
    (layoutAll envC dfsC).tablesEnd ≤ (layoutAll envC dfsC).executableOffset ∧
    (layoutAll envC dfsC).padLen =
      (layoutAll envC dfsC).executableOffset -
        (layoutAll envC dfsC).tablesEnd ∧
    (layoutAll envC dfsC).tablesEnd =
      envC.headerSize + descTotal dfsC + classTblTotal dfsC +
        methodsTblTotal dfsC :=
  oat_exec_offset_page_aligned envC envC_wf dfsC

/-- C6: zero-length sentinel — a method's empty compiled code, mapping
table, vmap table or invoke stub is recorded with offset 0 in the stored
layout record; an absent artifact never advances the layout cursor and an
empty record contributes no bytes to the file. -/
theorem oat_zero_length_sentinel (env : Env) (hwf : EnvWF env)
    (dfs : List DexFileData) (d c m : Nat) (df : DexFileData)
    (cd : Option ClassData) (isStatic : Bool) (midx : Nat)
    (mo : OatMethodOffsets)
    (hdf : dfs[d]? = some df) (hcd : df.classDefs[c]? = some cd)
    (hp : (classItems cd)[m]? = some (isStatic, midx))
    (hmo : methodLayoutAt (layoutAll env dfs) d c m = some mo) :
    (∀ i, env.getCompiledMethod d midx = some i →
      ((env.cm i).code = [] → mo.codeOffset = 0) ∧
      (mappingBytes env i = [] → mo.mappingTableOffset = 0) ∧
      (vmapBytes env i = [] → mo.vmapTableOffset = 0)) ∧
    (∀ s, env.findInvokeStub isStatic (df.shorty midx) = some s →
      (env.stub s).code = [] → mo.invokeStubOffset = 0) ∧
    (env.findInvokeStub isStatic (df.shorty midx) = none →
      mo.invokeStubOffset = 0) ∧
    (∀ (α : Type) [DecidableEq α] (mp : List (α × Nat)) (k : α)
      (extra off : Nat) (tr : List Nat), lookupOff mp k = none →
      artifactLayout mp k extra [] off tr = (0, off, (k, 0) :: mp, tr)) ∧
    (∀ (nm2 : String) (off : Nat) (f : WFile), f.failAt = none →
      writeRecord [] nm2 off f = (some off, { f with ops := f.ops + 1 })) := by
  obtain ⟨δ, N, hN, hlen, hpl, hfacts, hsucc, _, _⟩ :=
    oatWriterRun_facts env hwf dfs
  have hcmf := dexFacts_access hfacts hdf hcd hp
    (by simpa [methodLayoutAt] using hmo)
  obtain ⟨hcompiled, hstub, hstubn⟩ := hcmf
  refine ⟨?_, hstub, by simpa using hstubn, ?_, ?_⟩
  · intro i hi
    obtain ⟨_, hz1, hz2, hz3⟩ := hcompiled i (by rw [Nat.zero_add]; exact hi)
    exact ⟨hz1, hz2, hz3⟩
  · intro α inst mp k extra off tr hh
    simp [artifactLayout, hh]
  · intro nm2 off f hfa
    simp [writeRecord, WFile.writeFully, hfa]

/-- C6 witness: the concrete first method's empty mapping and vmap tables
are stored with offset 0. -/
theorem oat_zero_length_sentinel_witness :
    (mappingBytes envC 0 = [] → moC.mappingTableOffset = 0) ∧
    (vmapBytes envC 0 = [] → moC.vmapTableOffset = 0) :=
  ⟨((oat_zero_length_sentinel envC envC_wf dfsC 0 0 0 dfC
      (some ⟨[⟨0, 8⟩, ⟨1, 0⟩, ⟨2, 0⟩], []⟩) true 0 moC rfl rfl rfl rfl).1 0
      rfl).2.1,
    ((oat_zero_length_sentinel envC envC_wf dfsC 0 0 0 dfC
      (some ⟨[⟨0, 8⟩, ⟨1, 0⟩, ⟨2, 0⟩], []⟩) true 0 moC rfl rfl rfl rfl).1 0
      rfl).2.2⟩

/-- C7: determinism — two runs of the writer on the same inputs and the
same compiler responses succeed and produce byte-identical file contents of
length `finalOffset`, whatever the target file is called. -/
theorem oat_write_deterministic (env : Env) (hwf : EnvWF env)
    (dfs : List DexFileData) (nm1 nm2 : String) :
    (oatWriterRun env dfs nm1 none).1 = true ∧
    (oatWriterRun env dfs nm2 none).1 = true ∧
    (oatWriterRun env dfs nm1 none).2.content =
      (oatWriterRun env dfs nm2 none).2.content ∧
    (oatWriterRun env dfs nm1 none).2.content.length =
      (layoutAll env dfs).finalOffset := by
  obtain ⟨δ, N, hN, hlen, hpl, hfacts, hsucc, _, _⟩ :=
    oatWriterRun_facts env hwf dfs
  refine ⟨by rw [hsucc nm1], by rw [hsucc nm2], ?_, ?_⟩
  · rw [hsucc nm1, hsucc nm2]
  · rw [hsucc nm1]
    exact hlen

/-- C7 witness: two concrete runs at different file names agree byte for
byte. -/
theorem oat_write_deterministic_witness :
    (oatWriterRun envC dfsC "a" none).1 = true ∧
    (oatWriterRun envC dfsC "b" none).1 = true ∧
    (oatWriterRun envC dfsC "a" none).2.content =
      (oatWriterRun envC dfsC "b" none).2.content ∧
    (oatWriterRun envC dfsC "a" none).2.content.length =
      (layoutAll envC dfsC).finalOffset :=
  oat_write_deterministic envC envC_wf dfsC "a" "b"

/-- C8: error handling — the emit pass has a fixed window of `N` file
operations; a run whose injected failure hits any operation of the window
stops right after the failing operation, leaves a prefix of the success
content, appends a diagnostic to the log, and `Write` returns false; a run
with no failure in the window returns true. -/
theorem oat_write_error_aborts (env : Env) (hwf : EnvWF env)
    (dfs : List DexFileData) :
    ∃ δ N, 0 < N ∧
      SimB 0 (writeOat env dfs (layoutAll env dfs)) δ N ∧
      (∀ nm k, k < N → ∃ f2,
        oatWriterRun env dfs nm (some k) = (false, f2) ∧
        f2.ops = k + 1 ∧ f2.content <+: δ ∧ f2.log ≠ []) ∧
      (∀ nm, oatWriterRun env dfs nm none = (true, ⟨nm, δ, N, none, []⟩)) := by
  obtain ⟨δ, N, hsim, hN, hlen, hpl, hfacts⟩ := writeOat_sim env hwf dfs
  refine ⟨δ, N, hN, hsim, ?_, ?_⟩
  · intro nm k hk
    obtain ⟨δ2, lg, hp, hlg, he⟩ := (hsim (mkFile nm (some k)) rfl).2 k rfl
      (by simp [mkFile]) (by simp [mkFile]; omega)
    refine ⟨_, by simp only [oatWriterRun]; rw [he], by simp [mkFile], ?_,
      ?_⟩
    · simpa [mkFile] using hp
    · simpa [mkFile] using hlg
  · intro nm
    have h := (hsim (mkFile nm none) rfl).1 (Or.inl rfl)
    simp only [oatWriterRun]
    rw [h]
    simp [mkFile, WFile.ext]

/-- C8 witness: injecting a failure at the concrete run's first operation
makes the run return false with a nonempty diagnostic log. -/
theorem oat_write_error_aborts_witness :
    (oatWriterRun envC dfsC "oat8" (some 0)).1 = false ∧
    (oatWriterRun envC dfsC "oat8" (some 0)).2.log ≠ [] := by
  obtain ⟨δ, N, hN, hsim, hfail, hsucc⟩ :=
    oat_write_error_aborts envC envC_wf dfsC
  obtain ⟨f2, he, hops, hp, hlg⟩ := hfail "oat8" 0 hN
  rw [he]
  exact ⟨rfl, hlg⟩

/-- C9: for a method with no compiled code the layout pass stores and
checksums `frame_size_in_bytes = kStackAlignment` with zero spill masks,
while the emit pass writes 0 for the same on-disk frame-size word; the
frame-word bytes checksummed during layout therefore differ from the bytes
written to the file. -/
theorem oat_frame_size_discrepancy (env : Env) (dexIdx : Nat)
    (df : DexFileData) (isStatic : Bool) (methodIdx offset : Nat)
    (st : LayoutSt) (mo : OatMethodOffsets) (off' : Nat) (st' : LayoutSt)
    (mapsF : DedupMaps) (codeOffset : Nat) (f : WFile)
    (h : initOatCodeMethod env dexIdx df isStatic methodIdx offset st =
      (mo, off', st'))
    (hnone : env.getCompiledMethod dexIdx methodIdx = none)
    (hstub : env.findInvokeStub isStatic (df.shorty methodIdx) = none)
    (hfa : f.failAt = none)
    (hsa : 0 < env.stackAlignment)
    (hsa2 : env.stackAlignment < 4294967296) :
    mo.frameSizeInBytes = env.stackAlignment ∧ mo.coreSpillMask = 0 ∧
    mo.fpSpillMask = 0 ∧
    st'.trace = st.trace ++ frameWords env.stackAlignment 0 0 ∧
    writeCodeMethod env mapsF dexIdx df mo isStatic methodIdx codeOffset f =
      (some (codeOffset + 12),
        ⟨f.fname, f.content ++ frameWords 0 0 0, f.ops + 3, none, f.log⟩) ∧
    frameWords env.stackAlignment 0 0 ≠ frameWords 0 0 0 := by
  have he : initOatCodeMethod env dexIdx df isStatic methodIdx offset st =
      (⟨0, env.stackAlignment, 0, 0, 0, 0, 0⟩, offset + 12,
        ⟨⟨st.maps.codeOffsets, st.maps.mappingTableOffsets,
          st.maps.vmapTableOffsets⟩,
          st.trace ++ frameWords env.stackAlignment 0 0⟩) := by
    simp only [initOatCodeMethod, hnone, stubLayout, hstub]
  rw [h] at he
  simp only [Prod.mk.injEq] at he
  obtain ⟨rfl, rfl, rfl⟩ := he
  refine ⟨rfl, rfl, rfl, rfl, ?_, ?_⟩
  · simp [writeCodeMethod, hnone, writeMethodCode, writeSideTables,
      writeInvokeStub, hstub, bindStep, writeFrameWords, writeRecord,
      WFile.writeFully, hfa, frameWords, le32, List.append_assoc]
  · intro hcontra
    simp only [frameWords, le32, List.append_assoc, List.cons_append,
      List.nil_append, List.cons.injEq] at hcontra
    omega

/-- C9 witness: the concrete abstract method — layout checksums the frame
word 16, the emit pass writes the frame word 0. -/
theorem oat_frame_size_discrepancy_witness :
    moA.frameSizeInBytes = envC.stackAlignment ∧ moA.coreSpillMask = 0 ∧
    moA.fpSpillMask = 0 ∧
    (⟨⟨[], [], []⟩, frameWords 16 0 0⟩ : LayoutSt).trace =
      ([] : List Nat) ++ frameWords envC.stackAlignment 0 0 ∧
    writeCodeMethod envC ⟨[], [], []⟩ 0 dfC moA false 2 77
      (mkFile "x" none) =
      (some (77 + 12),
        ⟨(mkFile "x" none).fname,
          (mkFile "x" none).content ++ frameWords 0 0 0,
          (mkFile "x" none).ops + 3, none, (mkFile "x" none).log⟩) ∧
    frameWords envC.stackAlignment 0 0 ≠ frameWords 0 0 0 :=
  oat_frame_size_discrepancy envC 0 dfC false 2 20 ⟨⟨[], [], []⟩, []⟩ moA 32
    ⟨⟨[], [], []⟩, frameWords 16 0 0⟩ ⟨[], [], []⟩ 77 (mkFile "x" none) rfl
    rfl rfl rfl (by decide) (by decide)

/-- C10: cursor monotonicity — every layout step returns an offset that is
at least the offset it was given: the table inits unconditionally, the
page rounding under the build constants, and the code inits from any
reachable state (positive cursor, bounded maps, zero-sentinel maps). -/
theorem oat_cursor_monotone (env : Env) (hwf : EnvWF env) :
    (∀ (dfs : List DexFileData) (off : Nat),
      off ≤ (initOatDexFiles dfs off).2) ∧
    (∀ (dfs : List DexFileData) (odfs : List OatDexFileR) (off : Nat)
      (t : List Nat), off ≤ (initOatClasses dfs odfs off t).2.1) ∧
    (∀ (cds : List (Option ClassData)) (off : Nat),
      off ≤ (classTableStep cds off).2) ∧
    (∀ (dfs : List DexFileData) (off : Nat) (t : List Nat),
      off ≤ (initOatMethods dfs off t).2.1) ∧
    (∀ off : Nat, off ≤ (initOatCode env off).1) ∧
    (∀ (dexIdx : Nat) (df : DexFileData) (isStatic : Bool)
      (methodIdx off : Nat) (st : LayoutSt), 0 < off →
      mapsBounded st.maps off → mapsZero env st.maps →
      off ≤ (initOatCodeMethod env dexIdx df isStatic methodIdx off st).2.1) ∧
    (∀ (dexIdx : Nat) (dfs : List DexFileData) (off : Nat) (st : LayoutSt),
      0 < off → mapsBounded st.maps off → mapsZero env st.maps →
      off ≤ (initOatCodeDexFiles env dexIdx dfs off st).2.1) := by
  refine ⟨?_, ?_, ?_, ?_, ?_, ?_, ?_⟩
  · intro dfs off
    simp [initOatDexFiles_eq]
  · exact fun dfs odfs off t => initOatClasses_le dfs odfs off t
  · intro cds off
    rw [classTableStep_snd]
    omega
  · intro dfs off t
    rw [(initOatMethods_spec dfs off t).1]
    omega
  · intro off
    simp only [initOatCode]
    exact le_roundUp _ hwf.pageSizePos
  · intro dexIdx df isStatic methodIdx off st hoff hb hz
    rcases hm : initOatCodeMethod env dexIdx df isStatic methodIdx off st
      with ⟨mo, off2, st2⟩
    exact (initMethod_spec env hwf dexIdx df isStatic methodIdx off st hm
      hoff hb hz).1
  · intro dexIdx dfs off st hoff hb hz
    rcases hm : initOatCodeDexFiles env dexIdx dfs off st with ⟨mosss, off2, st2⟩
    exact (initCodeDexFiles_spec env hwf dfs dexIdx off st hm hoff hb hz
      (mapsLe_refl st2.maps)).1

/-- C10 witness: monotonicity at concrete cursors of the concrete build. -/
theorem oat_cursor_monotone_witness :
    13 ≤ (initOatDexFiles dfsC 13).2 ∧
    104 ≤ (initOatCodeDexFiles envC 0 dfsC 104 ⟨⟨[], [], []⟩, []⟩).2.1 := by
  obtain ⟨h1, h2, h3, h4, h5, h6, h7⟩ := oat_cursor_monotone envC envC_wf
  exact ⟨h1 dfsC 13,
    h7 0 dfsC 104 ⟨⟨[], [], []⟩, []⟩ (by decide) (mapsBounded_empty _)
      (mapsZero_empty envC)⟩

end Oat
